import Mathlib

/-
Verification of the recursive copy-and-remap engine of synapseutils/copy.py.

The development shallowly embeds the functions of copy.py:
  - the literal-pattern text substitution used by copyWiki (Python re.sub with
    patterns that contain only literal characters: entity ids and wiki ids),
  - the per-type copiers _copyFile, _copyLink, _copyTable, _copyFolder and the
    recursive walker _copyRecursive, over an explicit source tree and an explicit
    destination-side state (created entities, fresh ids, the trace of remote
    mutations, downloads, uploads, warnings),
  - _getSubWikiHeaders and copyWiki over wiki-page trees.
Remote-service behaviour (entity fetch, child listing, store, file-handle
listing) is represented by the source tree / state fields that the code reads
and writes; exceptions are modelled with Except, and the state is returned even
on the error path because a Python exception leaves already-performed remote
mutations in place.
-/

deriving instance DecidableEq for Except

namespace SynapseCopy

/-! ### Literal text substitution (model of re.sub with a literal pattern)

copyWiki calls re.sub(old, new, s) where old is built from entity ids and wiki
page ids ("syn123", "4", "syn123/wiki/4"); such patterns contain no regex
metacharacters, so re.sub is leftmost, non-overlapping replace-all of a literal
substring.  Markdown text is modelled as List Char. -/

/-- startsList pat s is true when pat is an initial segment of s. -/
def startsList : List Char → List Char → Bool
  | [], _ => true
  | _ :: _, [] => false
  | p :: ps, c :: cs => p == c && startsList ps cs

/-- occursIn pat s is true when pat occurs as a contiguous substring of s. -/
def occursIn (pat : List Char) : List Char → Bool
  | [] => pat.isEmpty
  | c :: rest => startsList pat (c :: rest) || occursIn pat rest

/-- Fuelled worker for replaceAll; fuel is at least the length of s, and each
step consumes at least one character of s, so the fuel never runs out on the
branch that matters. -/
def replaceAllGo (pat rep : List Char) : Nat → List Char → List Char
  | 0, s => s
  | fuel + 1, s =>
    if pat.isEmpty then s
    else if startsList pat s then rep ++ replaceAllGo pat rep fuel (s.drop pat.length)
    else
      match s with
      | [] => []
      | c :: rest => c :: replaceAllGo pat rep fuel rest

/-- Model of re.sub(pat, rep, s) for a pattern of literal characters: replace
every occurrence of pat in s by rep, scanning left to right without overlap.
An empty pattern never arises in copy.py (patterns are entity and wiki ids);
for it the function returns s unchanged. -/
def replaceAll (pat rep s : List Char) : List Char := replaceAllGo pat rep s.length s

/-- Model of the updateLinks pass of copyWiki (copy.py lines 410-419) applied to
one markdown body s: for every pair (oldWikiId2, newWikiId2) of wikiIdMap, in
insertion order, replace entity/wiki/oldWikiId2 by destinationId/wiki/newWikiId2,
and afterwards replace any remaining occurrence of entity by destinationId. -/
def wikiLinkRewrite (entity destinationId : List Char)
    (wikiIdMap : List (List Char × List Char)) (s : List Char) : List Char :=
  let s1 := wikiIdMap.foldl
    (fun acc p =>
      replaceAll (entity ++ "/wiki/".data ++ p.1) (destinationId ++ "/wiki/".data ++ p.2) acc) s
  replaceAll entity destinationId s1

/-- Model of the updateSynIds pass of copyWiki (copy.py lines 429-436) applied
to one markdown body s: for every pair (oldSynId, newSynId) of the supplied
entityMap, in insertion order, replace oldSynId by newSynId. -/
def synIdRewrite (entityMap : List (List Char × List Char)) (s : List Char) : List Char :=
  entityMap.foldl (fun acc p => replaceAll p.1 p.2 acc) s

/-! ### Entity model and destination state

EKind is the classification of a fetched entity (isinstance dispatch in
_copyRecursive); ENode is the snapshot of a source entity as seen by syn.get,
with the type-specific payload fields that _copyFile / _copyLink / _copyTable
read; ETree is a source subtree (the children of a node are what
syn.chunkedQuery for parentId returns).  CopyState is the destination-side
remote state the walk reads and mutates: already existing destination entities
(consulted by the duplicate-name queries and the Project check), fresh-id
counters, and traces of the remote mutations, downloads, uploads and warnings
that the run performs. -/

inductive EKind
  | project | folder | file | link | table | other

deriving DecidableEq

/-- One file handle as returned by the /entity/id/version/v/filehandles
listing; createdBy is the user that created the handle. -/
structure FileHandle where
  id : Nat
  createdBy : String

deriving DecidableEq

/-- Snapshot of a source entity (the result of syn.get with downloadFile=False). -/
structure ENode where
  id : String
  name : String
  kind : EKind
  dataFileHandleId : Nat := 0
  externalURL : Option String := none
  fileHandles : List FileHandle := []
  hasProv : Bool := true
  linkTargetId : String := ""
  linkTargetVersion : Nat := 0
  linkTargetExists : Bool := true
  tableRows : Nat := 0

deriving DecidableEq

/-- Source tree: an entity together with its children on the platform. -/
inductive ETree
  | node (data : ENode) (children : List ETree)

/-- Entity already present at the destination (or created there by this run). -/
structure DestEnt where
  id : String
  name : String
  parentId : String
  kind : EKind

deriving DecidableEq

/-- Destination-side remote state plus the observable traces of the run.
stores records every syn.store call that created or updated a remote entity
(the remote mutations); downloads records entity ids whose bytes were
downloaded; uploads records file-handle ids created by uploading bytes. -/
structure CopyState where
  dest : List DestEnt
  nextId : Nat := 0
  nextHandle : Nat := 0
  stores : List String := []
  downloads : List String := []
  uploads : List Nat := []
  warnings : List String := []

deriving DecidableEq

/-- Options of copy/_copyRecursive (the kwargs read at copy.py lines 86-89). -/
structure CopyCfg where
  version : Option Nat := none
  setProvenance : Option String := some "traceback"
  excludeTypes : List String := []
  update : Bool := false

deriving DecidableEq

/-- Keys of a mapping, in insertion order (Python dict preserves it). -/
def keys (m : List (String × String)) : List String := m.map Prod.fst

/-- Python dict assignment m[k] = v: overwrite in place when the key exists,
append at the end otherwise. -/
def dinsert (m : List (String × String)) (k v : String) : List (String × String) :=
  if k ∈ keys m then m.map (fun p => if p.1 = k then (k, v) else p) else m ++ [(k, v)]

/-- Model of the duplicate-name query: does the destination container already
hold a child with this name (select name from entity where parentId == p). -/
def hasChildNamed (st : CopyState) (parentId nm : String) : Bool :=
  st.dest.any (fun d => d.parentId == parentId && d.name == nm)

/-- Fresh entity id issued by the platform for the n-th store of the run. -/
def newSynId (n : Nat) : String := "syn_c" ++ toString n

/-- Model of syn.get on a destination id. -/
def lookupDest (st : CopyState) (i : String) : Option DestEnt :=
  st.dest.find? (fun d => d.id == i)

/-- ASCII lowercase of one character (model of Python str.lower for the ASCII
option strings that setProvenance can carry). -/
def lowerChar (c : Char) : Char :=
  if 65 ≤ c.toNat ∧ c.toNat ≤ 90 then Char.ofNat (c.toNat + 32) else c

/-- ASCII lowercase of a string. -/
def toLowerStr (v : String) : String := ⟨v.data.map lowerChar⟩

/-- Is the setProvenance option invalid (copy.py lines 192-204 accept
"traceback", "existing", None and any case variant of "none")? -/
def invalidProv : Option String → Bool
  | none => false
  | some v => !(v == "traceback" || v == "existing" || toLowerStr v == "none")

/-- New File entity as built by _copyFile before syn.store. -/
structure NewFile where
  name : String
  parentId : String
  dataFileHandleId : Nat
  path : Option String
  synapseStore : Bool
  activity : Option String

deriving DecidableEq

/-! ### Per-type copiers -/

/-- Creator of the file handle that matches the entity's current
dataFileHandleId in the file-handle listing of the requested version
(copy.py lines 206-215): the loop breaks at the first matching handle and the
for-else leaves createdBy as None when no handle matches. -/
def createdByOf (ent : ENode) : Option String :=
  match ent.fileHandles.find? (fun fh => fh.id == ent.dataFileHandleId) with
  | some fh => some fh.createdBy
  | none => none

/-- Resolution of the setProvenance option (copy.py lines 190-204): traceback
records the source as the used resource of a new activity, existing copies the
source's own provenance when recorded (a 404 is caught and yields none),
None or any case variant of "none" yields none, anything else raises. -/
def resolveAct (setProvenance : Option String) (ent : ENode) : Except String (Option String) :=
  match setProvenance with
  | some v =>
    if v == "traceback" then .ok (some ("Copied file used " ++ ent.id))
    else if v == "existing" then
      .ok (if ent.hasProv then some ("existing provenance of " ++ ent.id) else none)
    else if toLowerStr v == "none" then .ok none
    else .error "setProvenance must be one of None, existing, or traceback"
  | none => .ok none

/-- Model of _copyFile (copy.py lines 163-243).  Steps, in source order:
duplicate-name check at the destination unless update is set; resolution of the
provenance option (traceback = fresh activity using the source, existing = the
source's own provenance if recorded else none, none/None = none, anything else
raises); lookup of the creator of the file handle matching the entity's current
dataFileHandleId in the version's file-handle listing (None when no handle
matches); if the creator is the acting user the new File reuses the same
dataFileHandleId, otherwise a platform-hosted file (externalURL is None) is
downloaded and re-uploaded under a fresh file handle and an externally linked
file is recreated with path = externalURL and synapseStore=False; finally the
new entity is stored (the remote mutation).  The state is returned also on the
error path: an exception performs no further mutation. -/
def copyFile (ent : ENode) (destinationId profileOwnerId : String)
    (update : Bool) (setProvenance : Option String) (st : CopyState) :
    CopyState × Except String (String × NewFile) :=
  if !update && hasChildNamed st destinationId ent.name then
    (st, .error "An item with this name already exists: file could not be copied")
  else
    match resolveAct setProvenance ent with
    | .error e => (st, .error e)
    | .ok act =>
      if createdByOf ent == some profileOwnerId then
        let nid := newSynId st.nextId
        let nf : NewFile :=
          { name := ent.name, parentId := destinationId,
            dataFileHandleId := ent.dataFileHandleId, path := none,
            synapseStore := true, activity := act }
        ({ st with nextId := st.nextId + 1,
                   dest := st.dest ++ [⟨nid, ent.name, destinationId, .file⟩],
                   stores := st.stores ++ [nid] }, .ok (nid, nf))
      else
        match ent.externalURL with
        | none =>
          let nid := newSynId st.nextId
          let h := st.nextHandle
          let nf : NewFile :=
            { name := ent.name, parentId := destinationId,
              dataFileHandleId := h, path := some ("/tmp/" ++ ent.name),
              synapseStore := true, activity := act }
          ({ st with nextId := st.nextId + 1, nextHandle := st.nextHandle + 1,
                     downloads := st.downloads ++ [ent.id],
                     uploads := st.uploads ++ [h],
                     dest := st.dest ++ [⟨nid, ent.name, destinationId, .file⟩],
                     stores := st.stores ++ [nid] }, .ok (nid, nf))
        | some u =>
          let nid := newSynId st.nextId
          let nf : NewFile :=
            { name := ent.name, parentId := destinationId,
              dataFileHandleId := st.nextHandle, path := some u,
              synapseStore := false, activity := act }
          ({ st with nextId := st.nextId + 1, nextHandle := st.nextHandle + 1,
                     dest := st.dest ++ [⟨nid, ent.name, destinationId, .file⟩],
                     stores := st.stores ++ [nid] }, .ok (nid, nf))

/-- Model of _copyLink (copy.py lines 288-309): duplicate-name check, then a
new Link at the same target and target version is stored; when the store fails
because the target entity no longer exists, the exception is caught, a warning
is printed and None is returned instead. -/
def copyLink (ent : ENode) (destinationId : String) (st : CopyState) :
    CopyState × Except String (Option String) :=
  if hasChildNamed st destinationId ent.name then
    (st, .error "An item with this name already exists: link could not be copied")
  else if ent.linkTargetExists then
    let nid := newSynId st.nextId
    ({ st with nextId := st.nextId + 1,
               dest := st.dest ++ [⟨nid, ent.name, destinationId, .link⟩],
               stores := st.stores ++ [nid] }, .ok (some nid))
  else
    ({ st with warnings :=
        st.warnings ++ ["WARNING: The target of this link " ++ ent.id ++ " no longer exists"] },
     .ok none)

/-- Model of _copyTable (copy.py lines 245-286): duplicate-name check, then one
store call that creates the new schema (with the rows when the source has any)
and returns the new schema id. -/
def copyTable (ent : ENode) (destinationId : String) (st : CopyState) :
    CopyState × Except String String :=
  if hasChildNamed st destinationId ent.name then
    (st, .error "A table with this name already exists: table could not be copied")
  else
    let nid := newSynId st.nextId
    ({ st with nextId := st.nextId + 1,
               dest := st.dest ++ [⟨nid, ent.name, destinationId, .table⟩],
               stores := st.stores ++ [nid] }, .ok nid)

/-! ### The recursive walker -/

/-- First half of _copyFolder (copy.py lines 148-157): the duplicate-name
check against the destination's existing children, then the store of the new
same-named Folder — the remote mutation that creates the container.  The
children loop of _copyFolder (lines 158-161) is the copyChildren call placed
at the use site in copyRecursive. -/
def storeFolder (ent : ENode) (destinationId : String) (st : CopyState) :
    CopyState × Except String String :=
  if hasChildNamed st destinationId ent.name then
    (st, .error "An item with this name already exists: folder could not be copied")
  else
    let nid := newSynId st.nextId
    ({ st with nextId := st.nextId + 1,
               dest := st.dest ++ [⟨nid, ent.name, destinationId, .folder⟩],
               stores := st.stores ++ [nid] }, .ok nid)

set_option maxHeartbeats 2000000 in

mutual
/-- Model of _copyRecursive (copy.py lines 72-135).  The excludeTypes values
are validated first; then the fetched entity is dispatched on its kind:
Project rejects a version option, requires the destination to be a Project,
maps source to destination and recurses into the children with the same
destination; Folder rejects a version option, copies the folder (creating the
new container and recursing into the children inside it) and only afterwards
inserts its own mapping entry; File, Link and Table honour excludeTypes and map
the result of their copier, a Link whose copier returned None being omitted
from the mapping; any other kind is an error.  The mapping is the shared
accumulator, returned (threaded) instead of mutated in place. -/
def copyRecursive (t : ETree) (destinationId profileOwnerId : String) (cfg : CopyCfg)
    (mapping : List (String × String)) (st : CopyState) :
    CopyState × Except String (List (String × String)) :=
  match t with
  | .node ent children =>
    if !(cfg.excludeTypes.all (fun i => i == "file" || i == "link" || i == "table")) then
      (st, .error "Excluded types can only be a list of these values: file, table, and link")
    else
      match ent.kind with
      | .project =>
        if cfg.version.isSome then
          (st, .error "Cannot specify version when copying a project of folder")
        else if !((lookupDest st destinationId).any (fun d => d.kind == .project)) then
          (st, .error "You must give a destinationId of a new project to copy projects")
        else
          copyChildren children destinationId profileOwnerId cfg
            (dinsert mapping ent.id destinationId) st
      | .folder =>
        if cfg.version.isSome then
          (st, .error "Cannot specify version when copying a project of folder")
        else
          match storeFolder ent destinationId st with
          | (st1, .error e) => (st1, .error e)
          | (st1, .ok copiedId) =>
            match copyChildren children copiedId profileOwnerId cfg mapping st1 with
            | (st2, .error e) => (st2, .error e)
            | (st2, .ok m2) => (st2, .ok (dinsert m2 ent.id copiedId))
      | .file =>
        if cfg.excludeTypes.contains "file" then (st, .ok mapping)
        else
          match copyFile ent destinationId profileOwnerId cfg.update cfg.setProvenance st with
          | (st1, .error e) => (st1, .error e)
          | (st1, .ok (nid, _)) => (st1, .ok (dinsert mapping ent.id nid))
      | .link =>
        if cfg.excludeTypes.contains "link" then (st, .ok mapping)
        else
          match copyLink ent destinationId st with
          | (st1, .error e) => (st1, .error e)
          | (st1, .ok none) => (st1, .ok mapping)
          | (st1, .ok (some nid)) => (st1, .ok (dinsert mapping ent.id nid))
      | .table =>
        if cfg.excludeTypes.contains "table" then (st, .ok mapping)
        else
          match copyTable ent destinationId st with
          | (st1, .error e) => (st1, .error e)
          | (st1, .ok nid) => (st1, .ok (dinsert mapping ent.id nid))
      | .other => (st, .error "Not able to copy this type of file")

/-- Children loop of the Project branch and of _copyFolder: each child is
copied in listing order, threading the shared mapping and the remote state;
an exception aborts the remaining children. -/
def copyChildren (ts : List ETree) (destinationId profileOwnerId : String) (cfg : CopyCfg)
    (mapping : List (String × String)) (st : CopyState) :
    CopyState × Except String (List (String × String)) :=
  match ts with
  | [] => (st, .ok mapping)
  | t :: rest =>
    match copyRecursive t destinationId profileOwnerId cfg mapping st with
    | (st1, .error e) => (st1, .error e)
    | (st1, .ok m1) => copyChildren rest destinationId profileOwnerId cfg m1 st1
end

/-! ### Node collections and side predicates -/

mutual
/-- All entities of a source tree (the entities reachable from the root). -/
def treeNodes : ETree → List ENode
  | .node d cs => d :: forestNodes cs
def forestNodes : List ETree → List ENode
  | [] => []
  | t :: ts => treeNodes t ++ forestNodes ts
end

mutual
/-- On the platform only Projects and Folders have children; a wellformed
source tree gives children to containers only. -/
def containersOnly : ETree → Bool
  | .node d cs => (d.kind == .project || d.kind == .folder || cs.isEmpty) && containersOnlyF cs
def containersOnlyF : List ETree → Bool
  | [] => true
  | t :: ts => containersOnly t && containersOnlyF ts
end

/-- Is the node's kind excluded by the excludeTypes option? -/
def excludedByType (cfg : CopyCfg) (n : ENode) : Bool :=
  (n.kind == .file && cfg.excludeTypes.contains "file") ||
  (n.kind == .link && cfg.excludeTypes.contains "link") ||
  (n.kind == .table && cfg.excludeTypes.contains "table")

/-- Is the node a Link whose target no longer exists? -/
def brokenLink (n : ENode) : Bool :=
  n.kind == .link && !n.linkTargetExists

/-! ### Concrete fixtures used by counterexamples and witnesses -/

/-- File syn3 whose matching file handle was created by the acting user user1. -/
def demoFile : ENode :=
  { id := "syn3", name := "file3", kind := .file,
    dataFileHandleId := 11, fileHandles := [⟨11, "user1"⟩] }

def demoFolder : ENode := { id := "syn2", name := "folder2", kind := .folder }

def demoProject : ENode := { id := "syn1", name := "proj1", kind := .project }

/-- Project syn1 containing Folder syn2 which contains File syn3. -/
def demoTree : ETree := .node demoProject [.node demoFolder [.node demoFile []]]

/-- Destination world holding only the (empty) destination Project syn9. -/
def demoState : CopyState := { dest := [⟨"syn9", "destproj", "", .project⟩], nextHandle := 100 }

/-- Broken link fixture: Link syn5 whose target no longer exists. -/
def demoBrokenLink : ENode :=
  { id := "syn5", name := "link5", kind := .link, linkTargetExists := false }

/-- File syn4 whose matching file handle was created by a different user, with
platform-hosted bytes (no external URL). -/
def demoFileOther : ENode :=
  { id := "syn4", name := "file4", kind := .file, dataFileHandleId := 12,
    fileHandles := [⟨12, "someoneelse"⟩] }

/-- File syn6 whose matching file handle was created by a different user and
whose content is an external URL. -/
def demoFileExt : ENode :=
  { id := "syn6", name := "file6", kind := .file, dataFileHandleId := 13,
    fileHandles := [⟨13, "someoneelse"⟩], externalURL := some "http://example.org/f" }

/-- File syn7 whose file-handle listing contains no handle matching its current
data-file-handle id. -/
def demoFileNoMatch : ENode :=
  { id := "syn7", name := "file7", kind := .file, dataFileHandleId := 14,
    fileHandles := [⟨15, "user1"⟩] }

/-! ### Wiki model

A source wiki is a tree of pages.  copyWiki reads the flattened header list of
the tree, optionally restricts it to a sub-page with _getSubWikiHeaders,
creates the destination pages in list order while building wikiIdMap, then runs
the two markdown rewrite passes, and finally stores the pages. -/

structure WikiHeader where
  id : String
  parentId : Option String

deriving DecidableEq

structure WikiPage where
  id : String
  parentId : Option String
  title : String
  markdown : List Char
  attachments : List Nat

deriving DecidableEq

/-- Source wiki tree: a page and its sub-pages. -/
inductive WTree
  | node (page : WikiPage) (kids : List WTree)

def WTree.page : WTree → WikiPage
  | .node p _ => p

def WTree.kids : WTree → List WTree
  | .node _ ks => ks

/-- Header (id, parentId pair) of a page. -/
def hdrOf (p : WikiPage) : WikiHeader := ⟨p.id, p.parentId⟩

mutual
/-- Modelled from the spec: syn.getWikiHeaders belongs to this repository but
is not under src/; the spec describes its result as "the flattened header list
of the source wiki tree (id, parentId pairs)", which we model as the preorder
flattening of the source tree, the flattening of a tree in which every parent
precedes its children. -/
def preorder : WTree → List WikiHeader
  | .node p ks => hdrOf p :: preorderF ks
def preorderF : List WTree → List WikiHeader
  | [] => []
  | t :: ts => preorder t ++ preorderF ts
end

mutual
/-- All node-rooted subtrees of a wiki tree, in preorder. -/
def subtrees : WTree → List WTree
  | .node p ks => .node p ks :: subtreesF ks
def subtreesF : List WTree → List WTree
  | [] => []
  | t :: ts => subtrees t ++ subtreesF ts
end

mutual
/-- First subtree whose root page has the given id (model of syn.getWiki on
the source: fetching the full page body of a header id). -/
def findSubtree : WTree → String → Option WTree
  | .node p ks, i => if p.id = i then some (.node p ks) else findSubtreeF ks i
def findSubtreeF : List WTree → String → Option WTree
  | [], _ => none
  | t :: ts, i =>
    match findSubtree t i with
    | some s => some s
    | none => findSubtreeF ts i
end

mutual
/-- Height of a wiki tree (the recursion depth _getSubWikiHeaders needs). -/
def ht : WTree → Nat
  | .node _ ks => htF ks + 1
def htF : List WTree → Nat
  | [] => 0
  | t :: ts => Nat.max (ht t) (htF ts)
end

/-- Wellformed source wiki tree: page ids are globally distinct, each child
page records its parent's id as parentId, and the root page has none (the
shape getWikiHeaders data has on the platform). -/
def wfW (t : WTree) : Prop :=
  ((preorder t).map WikiHeader.id).Nodup ∧
  (∀ s ∈ subtrees t, ∀ c ∈ s.kids, c.page.parentId = some s.page.id) ∧
  t.page.parentId = none

/-- Model of _getSubWikiHeaders (copy.py lines 311-327).  The Python function
loops over the full header list: the first header matching subPageId (with the
shared mapping still empty) has its parentId popped and becomes the synthetic
root; a later match is appended as is; a header whose parentId equals
subPageId triggers a recursive call that re-scans the whole list for that
child's subtree, threading the shared mapping.  The in-place pop is modelled
by appending the stripped copy: for header lists with distinct ids the mutated
dict is never consulted again.  Python bounds the recursion by the call stack;
fuel stands for that, and any fuel at least the height of the requested
subtree reproduces the Python behaviour (copyWikiModel passes the header-list
length, which suffices for wellformed trees). -/
def getSubWikiHeaders (wikiHeaders : List WikiHeader) :
    Nat → String → List WikiHeader → List WikiHeader
  | 0, _, mapping => mapping
  | fuel + 1, subPageId, mapping =>
    wikiHeaders.foldl
      (fun acc i =>
        if i.id = subPageId then
          (if acc.isEmpty then acc ++ [{ i with parentId := none }] else acc ++ [i])
        else
          match i.parentId with
          | some p =>
            if p = subPageId then getSubWikiHeaders wikiHeaders fuel i.id acc else acc
          | none => acc)
      mapping

/-- New destination wiki page as built by copyWiki before the rewrite passes.
srcId is model bookkeeping recording which source page the copy came from. -/
structure NewWiki where
  id : String
  parentId : Option String
  title : String
  markdown : List Char
  attachments : List Nat
  srcId : String

deriving DecidableEq

/-- Fresh wiki page id issued by the platform for the n-th page store. -/
def newWikiId (n : Nat) : String := toString n

/-- Model of the page-creation loop of copyWiki (copy.py lines 369-401): for
each header in order, fetch the full page; a header that still has a parentId
is created under wikiIdMap[page.parentWikiId] (a missing key is the Python
KeyError); a header without parentId is the (possibly synthetic) root: with a
destinationSubPageId the existing destination page is overwritten in place
(its id is destinationSubPageId, no fresh id is used, and its existing title
is kept — the destination's old title is outside the model), otherwise a fresh
root page is created with parentWikiId = destinationSubPageId = None.
Attachments are downloaded and re-uploaded; the list of attachment handles is
carried over.  Each step records wiki.id -> new id in wikiIdMap. -/
def processHeaders (t : WTree) (destinationSubPageId : Option String) :
    List WikiHeader → List (String × String) → List NewWiki → Nat →
    Except String (List (String × String) × List NewWiki × Nat)
  | [], wikiIdMap, newWikis, ctr => .ok (wikiIdMap, newWikis, ctr)
  | i :: rest, wikiIdMap, newWikis, ctr =>
    match findSubtree t i.id with
    | none => .error "getWiki: wiki page not found"
    | some s =>
      let wiki := s.page
      match i.parentId with
      | some _ =>
        match wiki.parentId with
        | none => .error "KeyError: page has no parentWikiId"
        | some p =>
          match (wikiIdMap.find? (fun q => q.1 = p)).map Prod.snd with
          | none => .error "KeyError: parent wiki id not mapped"
          | some newParent =>
            let w : NewWiki :=
              { id := newWikiId ctr, parentId := some newParent, title := wiki.title,
                markdown := wiki.markdown, attachments := wiki.attachments, srcId := wiki.id }
            processHeaders t destinationSubPageId rest
              (dinsert wikiIdMap wiki.id (newWikiId ctr)) (newWikis ++ [w]) (ctr + 1)
      | none =>
        match destinationSubPageId with
        | some dsp =>
          let w : NewWiki :=
            { id := dsp, parentId := none, title := "", markdown := wiki.markdown,
              attachments := wiki.attachments, srcId := wiki.id }
          processHeaders t destinationSubPageId rest
            (dinsert wikiIdMap wiki.id dsp) (newWikis ++ [w]) ctr
        | none =>
          let w : NewWiki :=
            { id := newWikiId ctr, parentId := none, title := wiki.title,
              markdown := wiki.markdown, attachments := wiki.attachments, srcId := wiki.id }
          processHeaders t destinationSubPageId rest
            (dinsert wikiIdMap wiki.id (newWikiId ctr)) (newWikis ++ [w]) (ctr + 1)

/-- Model of the updateLinks pass of copyWiki (copy.py lines 403-420): for each
wikiIdMap entry, the page stored under the new id gets its markdown rewritten
by wikiLinkRewrite. -/
def rewritePass1 (entity destinationId : String) (wikiIdMap : List (String × String))
    (newWikis : List NewWiki) : List NewWiki :=
  wikiIdMap.foldl
    (fun ws p =>
      let pairs := wikiIdMap.map (fun q => (q.1.data, q.2.data))
      ws.map (fun w =>
        if w.id = p.2 then
          { w with markdown := wikiLinkRewrite entity.data destinationId.data pairs w.markdown }
        else w))
    newWikis

/-- Model of the updateSynIds pass of copyWiki (copy.py lines 422-436): for
each wikiIdMap entry, the page stored under the new id gets its markdown
rewritten by synIdRewrite with the supplied entity map. -/
def rewritePass2 (entityMap : List (String × String)) (wikiIdMap : List (String × String))
    (newWikis : List NewWiki) : List NewWiki :=
  wikiIdMap.foldl
    (fun ws p =>
      let pairs := entityMap.map (fun q => (q.1.data, q.2.data))
      ws.map (fun w =>
        if w.id = p.2 then
          { w with markdown := synIdRewrite pairs w.markdown }
        else w))
    newWikis

inductive CopyWikiResult
  | noWiki
  | copied (wikiIdMap : List (String × String)) (newWikis : List NewWiki)

deriving DecidableEq

/-- Model of copyWiki (copy.py lines 329-446).  A source entity with no wiki at
all yields the "no wiki" sentinel.  Otherwise the flattened header list is
fetched, restricted by _getSubWikiHeaders when entitySubPageId is given, the
destination pages are created in list order, the two rewrite passes run when
their flags are set (the updateSynIds pass also requires an entityMap), and the
wiki id map together with the new pages is the observable result. -/
def copyWikiModel (sourceWiki : Option WTree) (entity destinationId : String)
    (entitySubPageId destinationSubPageId : Option String)
    (updateLinks updateSynIds : Bool) (entityMap : Option (List (String × String)))
    (startCtr : Nat) : Except String CopyWikiResult :=
  match sourceWiki with
  | none => .ok .noWiki
  | some t =>
    let oldWh0 := preorder t
    let oldWh :=
      match entitySubPageId with
      | some spid => getSubWikiHeaders oldWh0 oldWh0.length spid []
      | none => oldWh0
    match processHeaders t destinationSubPageId oldWh [] [] startCtr with
    | .error e => .error e
    | .ok (wikiIdMap, newWikis, _) =>
      let newWikis1 :=
        if updateLinks then rewritePass1 entity destinationId wikiIdMap newWikis else newWikis
      let newWikis2 :=
        if updateSynIds then
          match entityMap with
          | some em => rewritePass2 em wikiIdMap newWikis1
          | none => newWikis1
        else newWikis1
      .ok (.copied wikiIdMap newWikis2)

/-- One step of the _getSubWikiHeaders scan, named for the proofs: exactly the
loop body of getSubWikiHeaders at the given inner fuel. -/
def gstep (wikiHeaders : List WikiHeader) (fuel : Nat) (subPageId : String)
    (acc : List WikiHeader) (i : WikiHeader) : List WikiHeader :=
  if i.id = subPageId then
    (if acc.isEmpty then acc ++ [{ i with parentId := none }] else acc ++ [i])
  else
    match i.parentId with
    | some p =>
      if p = subPageId then getSubWikiHeaders wikiHeaders fuel i.id acc else acc
    | none => acc

/-- Header that a scan for subPageId passes over without acting. -/
def untouched (sub : String) (i : WikiHeader) : Prop :=
  i.id ≠ sub ∧ i.parentId ≠ some sub

/-- Contribution of one scanned header to the result of _getSubWikiHeaders: a
header carrying the requested id is appended as is, a header whose parent is
the requested id contributes the preorder of its own subtree (the effect of
the recursive call), and any other header contributes nothing. -/
def gcontrib (t : WTree) (sub : String) (i : WikiHeader) : List WikiHeader :=
  if i.id = sub then [i]
  else
    match i.parentId with
    | some p =>
      if p = sub then
        match findSubtree t i.id with
        | some c => preorder c
        | none => []
      else []
    | none => []

/-- Concatenated contributions of a scanned header segment. -/
def contrib (t : WTree) (sub : String) : List WikiHeader → List WikiHeader
  | [] => []
  | i :: rest => gcontrib t sub i ++ contrib t sub rest

def mkChildWiki (ctr : Nat) (np : String) (p : WikiPage) : NewWiki :=
  { id := newWikiId ctr, parentId := some np, title := p.title,
    markdown := p.markdown, attachments := p.attachments, srcId := p.id }

/-- Topological skeleton of a new wiki page: its id, parent and source page.
The two markdown rewrite passes leave it unchanged. -/
def skel (w : NewWiki) : String × Option String × String := (w.id, w.parentId, w.srcId)

/-- The two optional rewrite passes of copyWiki, as applied after the
page-creation loop (copy.py lines 403-436). -/
def applyPasses (entity destinationId : String) (updateLinks updateSynIds : Bool)
    (entityMap : Option (List (String × String))) (wikiIdMap : List (String × String))
    (newWikis : List NewWiki) : List NewWiki :=
  let newWikis1 :=
    if updateLinks then rewritePass1 entity destinationId wikiIdMap newWikis else newWikis
  if updateSynIds then
    match entityMap with
    | some em => rewritePass2 em wikiIdMap newWikis1
    | none => newWikis1
  else newWikis1

/-- One-page source wiki: page 5 whose markdown references syn1/wiki/5. -/
def demoWikiPage : WikiPage :=
  { id := "5", parentId := none, title := "root", markdown := "see syn1/wiki/5".data,
    attachments := [] }

def demoWikiTree : WTree := .node demoWikiPage []

/-- Sub-page of page 5, for the parent-order and topology checks. -/
def demoWikiKid : WikiPage :=
  { id := "6", parentId := some "5", title := "kid", markdown := "hello".data,
    attachments := [] }

/-- Two-page source wiki: page 5 with sub-page 6. -/
def demoWikiTree2 : WTree := .node demoWikiPage [.node demoWikiKid []]

theorem startsList_length : ∀ pat s : List Char, startsList pat s = true → pat.length ≤ s.length := by
  intro pat
  induction pat with
  | nil => intro s _; exact Nat.zero_le _
  | cons p ps ih =>
    intro s h
    cases s with
    | nil => simp [startsList] at h
    | cons c cs =>
      simp only [startsList, Bool.and_eq_true] at h
      simpa using Nat.succ_le_succ (ih cs h.2)

theorem startsList_append_mono : ∀ a b s : List Char,
    startsList (a ++ b) s = true → startsList a s = true := by
  intro a
  induction a with
  | nil => intro b s _; rfl
  | cons x a' ih =>
    intro b s h
    cases s with
    | nil => simp [startsList] at h
    | cons y s' =>
      simp only [List.cons_append, startsList, Bool.and_eq_true] at h ⊢
      exact ⟨h.1, ih b s' h.2⟩

theorem occursIn_append_mono : ∀ a b s : List Char,
    occursIn (a ++ b) s = true → occursIn a s = true := by
  intro a b s
  induction s with
  | nil =>
    simp only [occursIn, List.isEmpty_iff, List.append_eq_nil]
    intro h
    simp [h.1]
  | cons c rest ih =>
    simp only [occursIn, Bool.or_eq_true]
    rintro (h | h)
    · exact Or.inl (startsList_append_mono a b _ h)
    · exact Or.inr (ih h)

theorem occursIn_append_of_not (a b s : List Char) (h : occursIn a s = false) :
    occursIn (a ++ b) s = false := by
  cases hc : occursIn (a ++ b) s with
  | false => rfl
  | true => rw [occursIn_append_mono a b s hc] at h; cases h

theorem startsList_of_occurs_nil : ∀ pat s, occursIn pat s = false → startsList pat s = false := by
  intro pat s h
  cases s with
  | nil =>
    cases pat with
    | nil => simp [occursIn] at h
    | cons p ps => rfl
  | cons c rest =>
    simp only [occursIn, Bool.or_eq_false_iff] at h
    exact h.1

theorem replaceAllGo_of_not_occurs (pat rep : List Char) :
    ∀ fuel s, occursIn pat s = false → replaceAllGo pat rep fuel s = s := by
  intro fuel
  induction fuel with
  | zero => intro s _; rfl
  | succ f ih =>
    intro s h
    cases s with
    | nil =>
      cases pat with
      | nil => simp [replaceAllGo]
      | cons p ps => simp [replaceAllGo, startsList]
    | cons c rest =>
      have h1 : startsList pat (c :: rest) = false := startsList_of_occurs_nil _ _ h
      have h2 : occursIn pat rest = false := by
        simp only [occursIn, Bool.or_eq_false_iff] at h
        exact h.2
      by_cases hp : pat.isEmpty
      · simp [replaceAllGo, hp]
      · simp [replaceAllGo, hp, h1, ih rest h2]

/-- Text with no occurrence of the pattern is left unchanged by replaceAll. -/
theorem replaceAll_of_not_occurs (pat rep s : List Char) (h : occursIn pat s = false) :
    replaceAll pat rep s = s :=
  replaceAllGo_of_not_occurs pat rep s.length s h

theorem wikiLinkRewrite_of_not_occurs (entity destinationId : List Char)
    (wikiIdMap : List (List Char × List Char)) (s : List Char)
    (h : occursIn entity s = false) :
    wikiLinkRewrite entity destinationId wikiIdMap s = s := by
  unfold wikiLinkRewrite
  have hfold : wikiIdMap.foldl
      (fun acc p =>
        replaceAll (entity ++ "/wiki/".data ++ p.1) (destinationId ++ "/wiki/".data ++ p.2) acc) s = s := by
    induction wikiIdMap with
    | nil => rfl
    | cons p rest ih =>
      simp only [List.foldl_cons]
      rw [replaceAll_of_not_occurs]
      · exact ih
      · exact occursIn_append_of_not _ _ _ (occursIn_append_of_not _ _ _ h)
  rw [hfold]
  exact replaceAll_of_not_occurs _ _ _ h

theorem synIdRewrite_of_not_occurs (entityMap : List (List Char × List Char)) (s : List Char)
    (h : ∀ p ∈ entityMap, occursIn p.1 s = false) :
    synIdRewrite entityMap s = s := by
  unfold synIdRewrite
  induction entityMap with
  | nil => rfl
  | cons p rest ih =>
    simp only [List.foldl_cons]
    rw [replaceAll_of_not_occurs _ _ _ (h p (by simp))]
    exact ih (fun q hq => h q (by simp [hq]))

/-- CLAIM C8: for every wiki page whose markdown contains no occurrence of the
source entity reference, no sourceRef/wiki/id pattern, and no key of the
supplied entity mapping, applying the updateLinks pass and then the
updateSynIds pass leaves the markdown unchanged.  (Absence of the source
entity reference already rules out every sourceRef/wiki/id pattern, since the
latter contains the former as a prefix.) -/
theorem claim8_rewrite_noop (entity destinationId : List Char)
    (wikiIdMap entityMap : List (List Char × List Char)) (s : List Char)
    (h1 : occursIn entity s = false)
    (h2 : ∀ p ∈ entityMap, occursIn p.1 s = false) :
    synIdRewrite entityMap (wikiLinkRewrite entity destinationId wikiIdMap s) = s := by
  rw [wikiLinkRewrite_of_not_occurs entity destinationId wikiIdMap s h1]
  exact synIdRewrite_of_not_occurs entityMap s h2

/-- Witness for claim8_rewrite_noop: a concrete markdown body containing none of
the references, with a nonempty wiki-id map and entity map. -/
theorem claim8_rewrite_noop_witness :
    occursIn "syn1".data "see other text".data = false ∧
    synIdRewrite [("syn1".data, "syn9".data)]
      (wikiLinkRewrite "syn1".data "syn9".data [("5".data, "7".data)] "see other text".data)
      = "see other text".data := by
  refine ⟨by decide, ?_⟩
  exact claim8_rewrite_noop "syn1".data "syn9".data [("5".data, "7".data)]
    [("syn1".data, "syn9".data)] "see other text".data (by decide)
    (by intro p hp; simp at hp; rw [hp]; decide)

/-! ### Mapping lemmas -/

theorem keys_map_update (m : List (String × String)) (k v : String) :
    keys (m.map (fun p => if p.1 = k then (k, v) else p)) = keys m := by
  unfold keys
  induction m with
  | nil => rfl
  | cons p rest ih =>
    simp only [List.map_cons, List.map_map] at ih ⊢
    by_cases h : p.1 = k
    · simp [h, ih]
    · simp [h, ih]

theorem keys_dinsert (m : List (String × String)) (k v : String) :
    keys (dinsert m k v) = if k ∈ keys m then keys m else keys m ++ [k] := by
  unfold dinsert
  by_cases h : k ∈ keys m
  · rw [if_pos h, if_pos h, keys_map_update]
  · rw [if_neg h, if_neg h]
    simp [keys]

theorem ok_pair_eq {α : Type} {st st' : CopyState} {m m' : α}
    (h : (st, (Except.ok m : Except String α)) = (st', .ok m')) :
    st = st' ∧ m = m' := by
  simp only [Prod.mk.injEq, Except.ok.injEq] at h
  exact h

theorem dinsert_keys_ext (m : List (String × String)) (k v : String) :
    ∃ δ, keys (dinsert m k v) = keys m ++ δ ∧ ∀ a ∈ δ, a = k := by
  by_cases h : k ∈ keys m
  · exact ⟨[], by simp [keys_dinsert, h], by simp⟩
  · exact ⟨[k], by simp [keys_dinsert, h], by simp⟩

theorem mem_keys_dinsert_self (m : List (String × String)) (k v : String) :
    k ∈ keys (dinsert m k v) := by
  rw [keys_dinsert]
  by_cases h : k ∈ keys m
  · rw [if_pos h]
    exact h
  · simp [h]

theorem mem_keys_dinsert_of_mem (m : List (String × String)) (k v a : String)
    (h : a ∈ keys m) : a ∈ keys (dinsert m k v) := by
  rw [keys_dinsert]
  by_cases hk : k ∈ keys m
  · simpa [hk] using h
  · simp [hk, h]

theorem dinsert_eq_append (m : List (String × String)) (k v : String) (h : k ∉ keys m) :
    dinsert m k v = m ++ [(k, v)] := by
  unfold dinsert
  simp [h]

/-! ### Structure of the mapping produced by the walk -/

mutual
/-- A successful walk only extends the mapping, and every new key is the id of
an entity of the copied tree. -/
theorem copyRecursive_keys_ext (t : ETree) (dest prof : String) (cfg : CopyCfg)
    (m : List (String × String)) (st st' : CopyState) (m' : List (String × String))
    (h : copyRecursive t dest prof cfg m st = (st', .ok m')) :
    ∃ δ, keys m' = keys m ++ δ ∧ ∀ a ∈ δ, a ∈ (treeNodes t).map ENode.id := by
  cases t with
  | node ent children =>
    rw [copyRecursive] at h
    split at h
    · simp at h
    · split at h
      · -- project
        split at h
        · simp at h
        · split at h
          · simp at h
          · obtain ⟨δ, hδ, hsub⟩ := copyChildren_keys_ext children dest prof cfg _ st st' m' h
            obtain ⟨δ0, hδ0, hδ0k⟩ := dinsert_keys_ext m ent.id dest
            refine ⟨δ0 ++ δ, by rw [hδ, hδ0, List.append_assoc], ?_⟩
            intro a ha
            rcases List.mem_append.mp ha with ha | ha
            · simp [treeNodes, hδ0k a ha]
            · simp only [treeNodes, List.map_cons, List.mem_cons]
              exact Or.inr (by simpa [forestNodes] using hsub a ha)
      · -- folder
        split at h
        · simp at h
        · split at h
          · simp at h
          · rename_i st1 copiedId heq1
            split at h
            · simp at h
            · rename_i st2 m2 heq2
              obtain ⟨hst, hm⟩ := ok_pair_eq h
              obtain ⟨δ, hδ, hsub⟩ := copyChildren_keys_ext children copiedId prof cfg m st1 st2 m2 heq2
              obtain ⟨δ0, hδ0, hδ0k⟩ := dinsert_keys_ext m2 ent.id copiedId
              refine ⟨δ ++ δ0, by rw [← hm, hδ0, hδ, List.append_assoc], ?_⟩
              intro a ha
              rcases List.mem_append.mp ha with ha | ha
              · simp only [treeNodes, List.map_cons, List.mem_cons]
                exact Or.inr (by simpa [forestNodes] using hsub a ha)
              · simp [treeNodes, hδ0k a ha]
      · -- file
        split at h
        · obtain ⟨hst, hm⟩ := ok_pair_eq h
          exact ⟨[], by rw [← hm, List.append_nil], by simp⟩
        · split at h
          · simp at h
          · obtain ⟨hst, hm⟩ := ok_pair_eq h
            obtain ⟨δ0, hδ0, hδ0k⟩ := dinsert_keys_ext m ent.id _
            exact ⟨δ0, by rw [← hm, hδ0], fun a ha => by simp [treeNodes, hδ0k a ha]⟩
      · -- link
        split at h
        · obtain ⟨hst, hm⟩ := ok_pair_eq h
          exact ⟨[], by rw [← hm, List.append_nil], by simp⟩
        · split at h
          · simp at h
          · obtain ⟨hst, hm⟩ := ok_pair_eq h
            exact ⟨[], by rw [← hm, List.append_nil], by simp⟩
          · obtain ⟨hst, hm⟩ := ok_pair_eq h
            obtain ⟨δ0, hδ0, hδ0k⟩ := dinsert_keys_ext m ent.id _
            exact ⟨δ0, by rw [← hm, hδ0], fun a ha => by simp [treeNodes, hδ0k a ha]⟩
      · -- table
        split at h
        · obtain ⟨hst, hm⟩ := ok_pair_eq h
          exact ⟨[], by rw [← hm, List.append_nil], by simp⟩
        · split at h
          · simp at h
          · obtain ⟨hst, hm⟩ := ok_pair_eq h
            obtain ⟨δ0, hδ0, hδ0k⟩ := dinsert_keys_ext m ent.id _
            exact ⟨δ0, by rw [← hm, hδ0], fun a ha => by simp [treeNodes, hδ0k a ha]⟩
      · -- other
        simp at h

theorem copyChildren_keys_ext (ts : List ETree) (dest prof : String) (cfg : CopyCfg)
    (m : List (String × String)) (st st' : CopyState) (m' : List (String × String))
    (h : copyChildren ts dest prof cfg m st = (st', .ok m')) :
    ∃ δ, keys m' = keys m ++ δ ∧ ∀ a ∈ δ, a ∈ (forestNodes ts).map ENode.id := by
  cases ts with
  | nil =>
    rw [copyChildren] at h
    obtain ⟨hst, hm⟩ := ok_pair_eq h
    exact ⟨[], by rw [← hm, List.append_nil], by simp⟩
  | cons t rest =>
    rw [copyChildren] at h
    split at h
    · simp at h
    · rename_i st1 m1 heq1
      obtain ⟨δ1, hδ1, hsub1⟩ := copyRecursive_keys_ext t dest prof cfg m st st1 m1 heq1
      obtain ⟨δ2, hδ2, hsub2⟩ := copyChildren_keys_ext rest dest prof cfg m1 st1 st' m' h
      refine ⟨δ1 ++ δ2, by rw [hδ2, hδ1, List.append_assoc], ?_⟩
      intro a ha
      rcases List.mem_append.mp ha with ha | ha
      · simp only [forestNodes, List.map_append, List.mem_append]
        exact Or.inl (hsub1 a ha)
      · simp only [forestNodes, List.map_append, List.mem_append]
        exact Or.inr (hsub2 a ha)
end

theorem copyLink_none (ent : ENode) (dest : String) (st st1 : CopyState)
    (h : copyLink ent dest st = (st1, .ok none)) :
    ent.linkTargetExists = false := by
  unfold copyLink at h
  split at h
  · simp at h
  · split at h
    · simp at h
    · rename_i hex
      simpa using hex

mutual
/-- A successful walk maps every entity of the source tree except those whose
kind is excluded and Links whose target no longer exists. -/
theorem copyRecursive_complete (t : ETree) (dest prof : String) (cfg : CopyCfg)
    (m : List (String × String)) (st st' : CopyState) (m' : List (String × String))
    (hC : containersOnly t = true)
    (h : copyRecursive t dest prof cfg m st = (st', .ok m')) :
    ∀ n ∈ treeNodes t, n.id ∈ keys m' ∨ excludedByType cfg n = true ∨ brokenLink n = true := by
  cases t with
  | node ent children =>
    unfold containersOnly at hC
    rw [Bool.and_eq_true] at hC
    obtain ⟨hC1, hCf⟩ := hC
    rw [copyRecursive] at h
    split at h
    · simp at h
    · split at h
      · -- project
        rename_i heqk
        split at h
        · simp at h
        · split at h
          · simp at h
          · intro n hn
            simp only [treeNodes, List.mem_cons] at hn
            obtain ⟨δ, hδ, _⟩ := copyChildren_keys_ext children dest prof cfg _ st st' m' h
            rcases hn with rfl | hn
            · exact Or.inl (hδ ▸ List.mem_append.mpr (Or.inl (mem_keys_dinsert_self m n.id dest)))
            · exact copyChildren_complete children dest prof cfg _ st st' m' hCf h n
                (by simpa [forestNodes] using hn)
      · -- folder
        rename_i heqk
        split at h
        · simp at h
        · split at h
          · simp at h
          · rename_i st1 copiedId heq1
            split at h
            · simp at h
            · rename_i st2 m2 heq2
              obtain ⟨hst, hm⟩ := ok_pair_eq h
              intro n hn
              simp only [treeNodes, List.mem_cons] at hn
              rcases hn with rfl | hn
              · exact Or.inl (hm ▸ mem_keys_dinsert_self m2 n.id copiedId)
              · rcases copyChildren_complete children copiedId prof cfg m st1 st2 m2 hCf heq2 n
                  (by simpa [forestNodes] using hn) with hk | hrest
                · exact Or.inl (hm ▸ mem_keys_dinsert_of_mem m2 ent.id copiedId n.id hk)
                · exact Or.inr hrest
      · -- file
        rename_i heqk
        have hempty : children = [] := by
          rw [heqk] at hC1
          simpa using hC1
        subst hempty
        intro n hn
        simp only [treeNodes, forestNodes, List.mem_cons, List.not_mem_nil, or_false] at hn
        subst hn
        split at h
        · rename_i hcont
          have hmem : "file" ∈ cfg.excludeTypes := by simpa using hcont
          exact Or.inr (Or.inl (by simp [excludedByType, heqk, hmem]))
        · split at h
          · simp at h
          · obtain ⟨hst, hm⟩ := ok_pair_eq h
            exact Or.inl (hm ▸ mem_keys_dinsert_self m n.id _)
      · -- link
        rename_i heqk
        have hempty : children = [] := by
          rw [heqk] at hC1
          simpa using hC1
        subst hempty
        intro n hn
        simp only [treeNodes, forestNodes, List.mem_cons, List.not_mem_nil, or_false] at hn
        subst hn
        split at h
        · rename_i hcont
          have hmem : "link" ∈ cfg.excludeTypes := by simpa using hcont
          exact Or.inr (Or.inl (by simp [excludedByType, heqk, hmem]))
        · split at h
          · simp at h
          · rename_i st1 heq1
            exact Or.inr (Or.inr (by simp [brokenLink, heqk, copyLink_none _ _ _ _ heq1]))
          · obtain ⟨hst, hm⟩ := ok_pair_eq h
            exact Or.inl (hm ▸ mem_keys_dinsert_self m n.id _)
      · -- table
        rename_i heqk
        have hempty : children = [] := by
          rw [heqk] at hC1
          simpa using hC1
        subst hempty
        intro n hn
        simp only [treeNodes, forestNodes, List.mem_cons, List.not_mem_nil, or_false] at hn
        subst hn
        split at h
        · rename_i hcont
          have hmem : "table" ∈ cfg.excludeTypes := by simpa using hcont
          exact Or.inr (Or.inl (by simp [excludedByType, heqk, hmem]))
        · split at h
          · simp at h
          · obtain ⟨hst, hm⟩ := ok_pair_eq h
            exact Or.inl (hm ▸ mem_keys_dinsert_self m n.id _)
      · -- other kind
        simp at h

theorem copyChildren_complete (ts : List ETree) (dest prof : String) (cfg : CopyCfg)
    (m : List (String × String)) (st st' : CopyState) (m' : List (String × String))
    (hC : containersOnlyF ts = true)
    (h : copyChildren ts dest prof cfg m st = (st', .ok m')) :
    ∀ n ∈ forestNodes ts, n.id ∈ keys m' ∨ excludedByType cfg n = true ∨ brokenLink n = true := by
  cases ts with
  | nil =>
    intro n hn
    simp [forestNodes] at hn
  | cons t rest =>
    unfold containersOnlyF at hC
    rw [Bool.and_eq_true] at hC
    obtain ⟨hC1, hC2⟩ := hC
    rw [copyChildren] at h
    split at h
    · simp at h
    · rename_i st1 m1 heq1
      intro n hn
      simp only [forestNodes, List.mem_append] at hn
      rcases hn with hn | hn
      · rcases copyRecursive_complete t dest prof cfg m st st1 m1 hC1 heq1 n hn with hk | hrest
        · obtain ⟨δ, hδ, _⟩ := copyChildren_keys_ext rest dest prof cfg m1 st1 st' m' h
          exact Or.inl (hδ ▸ List.mem_append.mpr (Or.inl hk))
        · exact Or.inr hrest
      · exact copyChildren_complete rest dest prof cfg m1 st1 st' m' hC2 h n hn
end

theorem resolveAct_ok (sp : Option String) (ent : ENode) (h : invalidProv sp = false) :
    ∃ a, resolveAct sp ent = .ok a := by
  cases sp with
  | none => exact ⟨none, rfl⟩
  | some v =>
    have h' : (v == "traceback" || v == "existing" || toLowerStr v == "none") = true := by
      cases hX : (v == "traceback" || v == "existing" || toLowerStr v == "none") with
      | true => rfl
      | false =>
        have hdef : invalidProv (some v) =
            !(v == "traceback" || v == "existing" || toLowerStr v == "none") := rfl
        rw [hdef, hX] at h
        exact absurd h (by decide)
    by_cases ht : (v == "traceback") = true
    · exact ⟨some ("Copied file used " ++ ent.id), by simp [resolveAct, ht]⟩
    · by_cases he : (v == "existing") = true
      · exact ⟨if ent.hasProv then some ("existing provenance of " ++ ent.id) else none,
          by simp [resolveAct, ht, he]⟩
      · have hn : (toLowerStr v == "none") = true := by
          rw [Bool.eq_false_iff.mpr ht, Bool.eq_false_iff.mpr he] at h'
          simpa using h'
        exact ⟨none, by simp only [resolveAct, Bool.eq_false_iff.mpr ht,
          Bool.eq_false_iff.mpr he, hn, Bool.false_eq_true, if_false, if_true]⟩

theorem resolveAct_error (sp : Option String) (ent : ENode) (h : invalidProv sp = true) :
    resolveAct sp ent = .error "setProvenance must be one of None, existing, or traceback" := by
  cases sp with
  | none => simp [invalidProv] at h
  | some v =>
    have h' : (v == "traceback" || v == "existing" || toLowerStr v == "none") = false := by
      cases hX : (v == "traceback" || v == "existing" || toLowerStr v == "none") with
      | false => rfl
      | true =>
        have hdef : invalidProv (some v) =
            !(v == "traceback" || v == "existing" || toLowerStr v == "none") := rfl
        rw [hdef, hX] at h
        exact absurd h (by decide)
    rw [Bool.or_eq_false_iff, Bool.or_eq_false_iff] at h'
    simp only [resolveAct, h'.1.1, h'.1.2, h'.2, Bool.false_eq_true, if_false]

/-! ### Claims about the entity walk -/

/-- CLAIM C2: for every source tree, after the recursive copy completes
successfully, every entity reachable from the root appears as a key in the
returned mapping, except entities whose kind is listed in excludeTypes and
except Link entities whose target no longer resolves. -/
theorem claim2_mapping_complete (t : ETree) (dest prof : String) (cfg : CopyCfg)
    (m : List (String × String)) (st : CopyState) (m' : List (String × String))
    (hC : containersOnly t = true)
    (h : (copyRecursive t dest prof cfg m st).2 = .ok m') :
    ∀ n ∈ treeNodes t, n.id ∈ keys m' ∨ excludedByType cfg n = true ∨ brokenLink n = true := by
  have h2 : copyRecursive t dest prof cfg m st =
      ((copyRecursive t dest prof cfg m st).1, (copyRecursive t dest prof cfg m st).2) := rfl
  rw [h] at h2
  exact copyRecursive_complete t dest prof cfg m st _ m' hC h2

/-- Witness for claim2_mapping_complete at the concrete tree
Project syn1 { Folder syn2 { File syn3 } } copied into Project syn9. -/
theorem claim2_mapping_complete_witness :
    containersOnly demoTree = true ∧
    ∀ n ∈ treeNodes demoTree,
      n.id ∈ keys [("syn1", "syn9"), ("syn3", "syn_c1"), ("syn2", "syn_c0")] ∨
      excludedByType {} n = true ∨ brokenLink n = true :=
  ⟨by decide,
   claim2_mapping_complete demoTree "syn9" "user1" {} [] demoState
     [("syn1", "syn9"), ("syn3", "syn_c1"), ("syn2", "syn_c0")] (by decide) (by decide)⟩

/-- CLAIM C1 counterexample: copying Project syn1 (destination syn9) containing
Folder syn2 which holds File syn3 yields the mapping with keys in insertion
order syn1, syn3, syn2.  The destination parent of the copied syn3 is the copy
of syn2, yet syn2's mapping entry is inserted after syn3's entry
(_copyRecursive records a Folder's own entry only after _copyFolder has copied
everything inside it), so mapping insertion is not parent-before-child. -/
theorem claim1_counterexample :
    (copyRecursive demoTree "syn9" "user1" {} [] demoState).2 =
      .ok [("syn1", "syn9"), ("syn3", "syn_c1"), ("syn2", "syn_c0")] ∧
    List.indexOf "syn3" (keys [("syn1", "syn9"), ("syn3", "syn_c1"), ("syn2", "syn_c0")]) <
      List.indexOf "syn2" (keys [("syn1", "syn9"), ("syn3", "syn_c1"), ("syn2", "syn_c0")]) := by
  constructor <;> decide

/-- CLAIM C1 (amended): mapping insertion is parent-before-child only at a
Project root: a copied Project's entry is inserted before the entries of all
entities copied inside it, whereas a copied Folder's entry is appended only
after the entries of everything copied inside the folder (the folder entity
itself is created remotely before its children are copied, but its mapping
entry is recorded last). -/
theorem claim1_amended (ent : ENode) (children : List ETree) (dest prof : String)
    (cfg : CopyCfg) (m : List (String × String)) (st : CopyState)
    (m' : List (String × String)) :
    (ent.kind = .folder → ent.id ∉ keys m →
      ent.id ∉ (forestNodes children).map ENode.id →
      (copyRecursive (.node ent children) dest prof cfg m st).2 = .ok m' →
      ∃ δ, keys m' = (keys m ++ δ) ++ [ent.id])
  ∧ (ent.kind = .project → ent.id ∉ keys m →
      (copyRecursive (.node ent children) dest prof cfg m st).2 = .ok m' →
      ∃ δ, keys m' = (keys m ++ [ent.id]) ++ δ) := by
  constructor
  · intro hk hm0 hids h
    have h2 : copyRecursive (.node ent children) dest prof cfg m st =
        ((copyRecursive (.node ent children) dest prof cfg m st).1,
         (copyRecursive (.node ent children) dest prof cfg m st).2) := rfl
    rw [h] at h2
    rw [copyRecursive] at h2
    split at h2
    · simp at h2
    · split at h2
      · rename_i heqk
        rw [hk] at heqk
        cases heqk
      · split at h2
        · simp at h2
        · split at h2
          · simp at h2
          · rename_i st1 copiedId heq1
            split at h2
            · simp at h2
            · rename_i st2 m2 heq2
              obtain ⟨hst, hm⟩ := ok_pair_eq h2
              obtain ⟨δ, hδ, hsub⟩ :=
                copyChildren_keys_ext children copiedId prof cfg m st1 st2 m2 heq2
              have hnot : ent.id ∉ keys m2 := by
                rw [hδ]
                intro hmem
                rcases List.mem_append.mp hmem with hmem | hmem
                · exact hm0 hmem
                · exact hids (hsub _ hmem)
              refine ⟨δ, ?_⟩
              rw [← hm, keys_dinsert, if_neg hnot, hδ]
      · rename_i heqk
        rw [hk] at heqk
        cases heqk
      · rename_i heqk
        rw [hk] at heqk
        cases heqk
      · rename_i heqk
        rw [hk] at heqk
        cases heqk
      · rename_i heqk
        rw [hk] at heqk
        cases heqk
  · intro hk hm0 h
    have h2 : copyRecursive (.node ent children) dest prof cfg m st =
        ((copyRecursive (.node ent children) dest prof cfg m st).1,
         (copyRecursive (.node ent children) dest prof cfg m st).2) := rfl
    rw [h] at h2
    rw [copyRecursive] at h2
    split at h2
    · simp at h2
    · split at h2
      · split at h2
        · simp at h2
        · split at h2
          · simp at h2
          · obtain ⟨δ, hδ, hsub⟩ :=
              copyChildren_keys_ext children dest prof cfg _ st _ m' h2
            refine ⟨δ, ?_⟩
            rw [hδ, keys_dinsert, if_neg hm0]
      · rename_i heqk
        rw [hk] at heqk
        cases heqk
      · rename_i heqk
        rw [hk] at heqk
        cases heqk
      · rename_i heqk
        rw [hk] at heqk
        cases heqk
      · rename_i heqk
        rw [hk] at heqk
        cases heqk
      · rename_i heqk
        rw [hk] at heqk
        cases heqk

/-- Witness for claim1_amended: the folder part at Folder syn2 { File syn3 }
copied into syn9 (its own entry comes last), and the project part at the demo
tree (the project entry comes first). -/
theorem claim1_amended_witness :
    (∃ δ, keys [("syn3", "syn_c1"), ("syn2", "syn_c0")] =
        (keys ([] : List (String × String)) ++ δ) ++ ["syn2"])
    ∧ (∃ δ, keys [("syn1", "syn9"), ("syn3", "syn_c1"), ("syn2", "syn_c0")] =
        (keys ([] : List (String × String)) ++ ["syn1"]) ++ δ) := by
  constructor
  · exact (claim1_amended demoFolder [.node demoFile []] "syn9" "user1" {} [] demoState
      [("syn3", "syn_c1"), ("syn2", "syn_c0")]).1 rfl (by decide) (by decide) (by decide)
  · exact (claim1_amended demoProject [.node demoFolder [.node demoFile []]] "syn9" "user1"
      {} [] demoState [("syn1", "syn9"), ("syn3", "syn_c1"), ("syn2", "syn_c0")]).2
      rfl (by decide) (by decide)

/-- CLAIM C5 counterexample: with setProvenance "bogus", the walk over
Project syn1 { Folder syn2 { File syn3 } } raises the setProvenance error only
when the file copy is reached, after the new folder has already been stored:
the run ends in the InvalidArgument error with one remote mutation (the folder
store) already performed, so the condition is not checked before any remote
mutation. -/
theorem claim5_counterexample :
    (copyRecursive demoTree "syn9" "user1" { setProvenance := some "bogus" } [] demoState).2 =
      .error "setProvenance must be one of None, existing, or traceback" ∧
    (copyRecursive demoTree "syn9" "user1" { setProvenance := some "bogus" } [] demoState).1.stores =
      ["syn_c0"] := by
  constructor <;> decide

/-- CLAIM C5 (amended): an invalid excludeTypes value is raised before any
remote mutation, and a version option combined with a Project or Folder source
is raised before any remote mutation (in both cases the state is returned
untouched); an unknown setProvenance value is raised by _copyFile before that
file is stored — and in particular before any mutation by the file copier
itself — but only once a file copy is reached, so other entities of the walk
(for example folders) may already have been created remotely. -/
theorem claim5_amended :
    (∀ (t : ETree) (dest prof : String) (cfg : CopyCfg)
        (m : List (String × String)) (st : CopyState),
      cfg.excludeTypes.all (fun i => i == "file" || i == "link" || i == "table") = false →
      ∃ e, copyRecursive t dest prof cfg m st = (st, .error e))
  ∧ (∀ (ent : ENode) (children : List ETree) (dest prof : String) (cfg : CopyCfg)
        (m : List (String × String)) (st : CopyState),
      cfg.version.isSome = true → ent.kind = .project ∨ ent.kind = .folder →
      ∃ e, copyRecursive (.node ent children) dest prof cfg m st = (st, .error e))
  ∧ (∀ (ent : ENode) (dest prof : String) (upd : Bool) (sp : Option String) (st : CopyState),
      invalidProv sp = true →
      ∃ e, copyFile ent dest prof upd sp st = (st, .error e)) := by
  refine ⟨?_, ?_, ?_⟩
  · intro t dest prof cfg m st hall
    cases t with
    | node ent children =>
      refine ⟨"Excluded types can only be a list of these values: file, table, and link", ?_⟩
      rw [copyRecursive]
      simp [hall]
  · intro ent children dest prof cfg m st hv hk
    by_cases hall :
        cfg.excludeTypes.all (fun i => i == "file" || i == "link" || i == "table") = true
    · refine ⟨"Cannot specify version when copying a project of folder", ?_⟩
      rw [copyRecursive]
      rcases hk with hk | hk <;> simp [hall, hk, hv]
    · refine ⟨"Excluded types can only be a list of these values: file, table, and link", ?_⟩
      rw [copyRecursive]
      simp [Bool.eq_false_iff.mpr hall]
  · intro ent dest prof upd sp st hsp
    by_cases hcol : (!upd && hasChildNamed st dest ent.name) = true
    · exact ⟨"An item with this name already exists: file could not be copied",
        by rw [copyFile]; simp [hcol]⟩
    · exact ⟨"setProvenance must be one of None, existing, or traceback",
        by rw [copyFile]; simp [Bool.eq_false_iff.mpr hcol, resolveAct_error sp ent hsp]⟩

/-- Witness for claim5_amended: the three parts applied at concrete inputs
(an invalid excludeTypes entry, a version option on the demo project, and a
bogus setProvenance at the file copier). -/
theorem claim5_amended_witness :
    (∃ e, copyRecursive demoTree "syn9" "user1" { excludeTypes := ["folder"] } [] demoState
        = (demoState, .error e))
    ∧ (∃ e, copyRecursive (.node demoProject []) "syn9" "user1" { version := some 2 } [] demoState
        = (demoState, .error e))
    ∧ (∃ e, copyFile demoFile "syn9" "user1" false (some "bogus") demoState
        = (demoState, .error e)) :=
  ⟨claim5_amended.1 demoTree "syn9" "user1" { excludeTypes := ["folder"] } [] demoState (by decide),
   claim5_amended.2.1 demoProject [] "syn9" "user1" { version := some 2 } [] demoState
     (by decide) (Or.inl rfl),
   claim5_amended.2.2 demoFile "syn9" "user1" false (some "bogus") demoState (by decide)⟩

/-- CLAIM C6: when a Link's target entity no longer exists, the link copier
returns a null result and appends a warning instead of raising, the Link gets
no mapping entry (the mapping is returned unchanged), and the enclosing walk
continues past it: processing the link as one child leaves exactly the
remaining children to process, with no abort. -/
theorem claim6_broken_link_tolerated (ent : ENode) (rest : List ETree) (dest prof : String)
    (cfg : CopyCfg) (m : List (String × String)) (st : CopyState)
    (hk : ent.kind = .link) (hb : ent.linkTargetExists = false)
    (hex : cfg.excludeTypes.all (fun i => i == "file" || i == "link" || i == "table") = true)
    (hnl : cfg.excludeTypes.contains "link" = false)
    (hc : hasChildNamed st dest ent.name = false) :
    copyRecursive (.node ent []) dest prof cfg m st =
      ({ st with warnings := st.warnings ++
          ["WARNING: The target of this link " ++ ent.id ++ " no longer exists"] }, .ok m)
    ∧ copyChildren (.node ent [] :: rest) dest prof cfg m st =
        copyChildren rest dest prof cfg m
          { st with warnings := st.warnings ++
              ["WARNING: The target of this link " ++ ent.id ++ " no longer exists"] } := by
  have h1 : copyRecursive (.node ent []) dest prof cfg m st =
      ({ st with warnings := st.warnings ++
          ["WARNING: The target of this link " ++ ent.id ++ " no longer exists"] }, .ok m) := by
    rw [copyRecursive]
    have hnl2 : "link" ∉ cfg.excludeTypes := by simpa using hnl
    simp [hex, hk, hnl2, copyLink, hc, hb]
  exact ⟨h1, by rw [copyChildren, h1]⟩

/-- Witness for claim6_broken_link_tolerated at the broken link syn5 placed
before File syn3 in the destination project syn9. -/
theorem claim6_broken_link_tolerated_witness :
    copyRecursive (.node demoBrokenLink []) "syn9" "user1" {} [] demoState =
      ({ demoState with warnings :=
          ["WARNING: The target of this link syn5 no longer exists"] }, .ok [])
    ∧ copyChildren [.node demoBrokenLink [], .node demoFile []] "syn9" "user1" {} [] demoState =
        copyChildren [.node demoFile []] "syn9" "user1" {} []
          { demoState with warnings :=
              ["WARNING: The target of this link syn5 no longer exists"] } :=
  claim6_broken_link_tolerated demoBrokenLink [.node demoFile []] "syn9" "user1" {} [] demoState
    rfl rfl (by decide) (by decide) (by decide)

theorem copyFile_reuse (ent : ENode) (dest prof : String) (upd : Bool)
    (sp : Option String) (st : CopyState)
    (hcol : (!upd && hasChildNamed st dest ent.name) = false)
    (hsp : invalidProv sp = false)
    (hcb : createdByOf ent = some prof) :
    ∃ nid nf st', copyFile ent dest prof upd sp st = (st', .ok (nid, nf)) ∧
      nf.dataFileHandleId = ent.dataFileHandleId ∧
      st'.downloads = st.downloads ∧ st'.uploads = st.uploads := by
  obtain ⟨a, ha⟩ := resolveAct_ok sp ent hsp
  refine ⟨newSynId st.nextId,
    { name := ent.name, parentId := dest, dataFileHandleId := ent.dataFileHandleId,
      path := none, synapseStore := true, activity := a },
    { st with nextId := st.nextId + 1,
              dest := st.dest ++ [⟨newSynId st.nextId, ent.name, dest, .file⟩],
              stores := st.stores ++ [newSynId st.nextId] }, ?_, rfl, rfl, rfl⟩
  rw [copyFile, hcol, ha]
  simp [hcb]

theorem copyFile_rehost_hosted (ent : ENode) (dest prof : String) (upd : Bool)
    (sp : Option String) (st : CopyState)
    (hcol : (!upd && hasChildNamed st dest ent.name) = false)
    (hsp : invalidProv sp = false)
    (hcb : createdByOf ent ≠ some prof) (hurl : ent.externalURL = none) :
    ∃ nid nf st', copyFile ent dest prof upd sp st = (st', .ok (nid, nf)) ∧
      st'.downloads = st.downloads ++ [ent.id] ∧
      st'.uploads = st.uploads ++ [nf.dataFileHandleId] ∧
      nf.synapseStore = true ∧
      (ent.dataFileHandleId < st.nextHandle → nf.dataFileHandleId ≠ ent.dataFileHandleId) := by
  obtain ⟨a, ha⟩ := resolveAct_ok sp ent hsp
  have hcb2 : (createdByOf ent == some prof) = false := by
    simpa using hcb
  refine ⟨newSynId st.nextId,
    { name := ent.name, parentId := dest, dataFileHandleId := st.nextHandle,
      path := some ("/tmp/" ++ ent.name), synapseStore := true, activity := a },
    { st with nextId := st.nextId + 1, nextHandle := st.nextHandle + 1,
              downloads := st.downloads ++ [ent.id],
              uploads := st.uploads ++ [st.nextHandle],
              dest := st.dest ++ [⟨newSynId st.nextId, ent.name, dest, .file⟩],
              stores := st.stores ++ [newSynId st.nextId] },
    ?_, rfl, rfl, rfl, fun hlt => Ne.symm (Nat.ne_of_lt hlt)⟩
  rw [copyFile, hcol, ha, hcb2, hurl]
  simp

theorem copyFile_rehost_external (ent : ENode) (dest prof : String) (upd : Bool)
    (sp : Option String) (st : CopyState) (u : String)
    (hcol : (!upd && hasChildNamed st dest ent.name) = false)
    (hsp : invalidProv sp = false)
    (hcb : createdByOf ent ≠ some prof) (hurl : ent.externalURL = some u) :
    ∃ nid nf st', copyFile ent dest prof upd sp st = (st', .ok (nid, nf)) ∧
      nf.path = some u ∧ nf.synapseStore = false ∧
      st'.downloads = st.downloads ∧ st'.uploads = st.uploads := by
  obtain ⟨a, ha⟩ := resolveAct_ok sp ent hsp
  have hcb2 : (createdByOf ent == some prof) = false := by
    simpa using hcb
  refine ⟨newSynId st.nextId,
    { name := ent.name, parentId := dest, dataFileHandleId := st.nextHandle,
      path := some u, synapseStore := false, activity := a },
    { st with nextId := st.nextId + 1, nextHandle := st.nextHandle + 1,
              dest := st.dest ++ [⟨newSynId st.nextId, ent.name, dest, .file⟩],
              stores := st.stores ++ [newSynId st.nextId] },
    ?_, rfl, rfl, rfl, rfl⟩
  rw [copyFile, hcol, ha, hcb2, hurl]
  simp

/-- CLAIM C7: in the file copier, when the creator of the source's matching
file handle equals the acting identity, the new File entity reuses the same
data-file-handle reference and no bytes are transferred; otherwise a
platform-hosted file (no externalURL) is fully downloaded and re-uploaded,
yielding a file handle distinct from the source's, and an externally linked
file is recreated pointing at the same external URL with no bytes
transferred. -/
theorem claim7_file_handle_policy (ent : ENode) (dest prof : String) (upd : Bool)
    (sp : Option String) (st : CopyState)
    (hcol : (!upd && hasChildNamed st dest ent.name) = false)
    (hsp : invalidProv sp = false) :
    (createdByOf ent = some prof →
      ∃ nid nf st', copyFile ent dest prof upd sp st = (st', .ok (nid, nf)) ∧
        nf.dataFileHandleId = ent.dataFileHandleId ∧
        st'.downloads = st.downloads ∧ st'.uploads = st.uploads)
  ∧ (createdByOf ent ≠ some prof → ent.externalURL = none →
      ∃ nid nf st', copyFile ent dest prof upd sp st = (st', .ok (nid, nf)) ∧
        st'.downloads = st.downloads ++ [ent.id] ∧
        st'.uploads = st.uploads ++ [nf.dataFileHandleId] ∧
        nf.synapseStore = true ∧
        (ent.dataFileHandleId < st.nextHandle → nf.dataFileHandleId ≠ ent.dataFileHandleId))
  ∧ (∀ u, createdByOf ent ≠ some prof → ent.externalURL = some u →
      ∃ nid nf st', copyFile ent dest prof upd sp st = (st', .ok (nid, nf)) ∧
        nf.path = some u ∧ nf.synapseStore = false ∧
        st'.downloads = st.downloads ∧ st'.uploads = st.uploads) :=
  ⟨fun hcb => copyFile_reuse ent dest prof upd sp st hcol hsp hcb,
   fun hcb hurl => copyFile_rehost_hosted ent dest prof upd sp st hcol hsp hcb hurl,
   fun u hcb hurl => copyFile_rehost_external ent dest prof upd sp st u hcol hsp hcb hurl⟩

/-- Witness for claim7_file_handle_policy: the reuse case at demoFile (handle
created by the acting user), the download-and-re-upload case at demoFileOther,
and the external-URL case at demoFileExt. -/
theorem claim7_file_handle_policy_witness :
    (∃ nid nf st', copyFile demoFile "syn9" "user1" false (some "traceback") demoState =
        (st', .ok (nid, nf)) ∧
      nf.dataFileHandleId = demoFile.dataFileHandleId ∧
      st'.downloads = demoState.downloads ∧ st'.uploads = demoState.uploads)
  ∧ (∃ nid nf st', copyFile demoFileOther "syn9" "user1" false (some "traceback") demoState =
        (st', .ok (nid, nf)) ∧
      st'.downloads = demoState.downloads ++ [demoFileOther.id] ∧
      st'.uploads = demoState.uploads ++ [nf.dataFileHandleId] ∧
      nf.synapseStore = true ∧
      (demoFileOther.dataFileHandleId < demoState.nextHandle →
        nf.dataFileHandleId ≠ demoFileOther.dataFileHandleId))
  ∧ (∃ nid nf st', copyFile demoFileExt "syn9" "user1" false (some "traceback") demoState =
        (st', .ok (nid, nf)) ∧
      nf.path = some "http://example.org/f" ∧ nf.synapseStore = false ∧
      st'.downloads = demoState.downloads ∧ st'.uploads = demoState.uploads) :=
  ⟨(claim7_file_handle_policy demoFile "syn9" "user1" false (some "traceback") demoState
      (by decide) (by decide)).1 (by decide),
   (claim7_file_handle_policy demoFileOther "syn9" "user1" false (some "traceback") demoState
      (by decide) (by decide)).2.1 (by decide) rfl,
   (claim7_file_handle_policy demoFileExt "syn9" "user1" false (some "traceback") demoState
      (by decide) (by decide)).2.2 "http://example.org/f" (by decide) rfl⟩

/-- CLAIM C10: when none of the source version's listed file handles has an id
equal to the entity's current data-file-handle id, the creator is treated as
unknown (none), so the copy never reuses the file handle and takes the rehost
path — download and re-upload for a platform-hosted file, external-URL
recreation otherwise — without raising an error. -/
theorem claim10_unmatched_handle_rehosts (ent : ENode) (dest prof : String) (upd : Bool)
    (sp : Option String) (st : CopyState)
    (hcol : (!upd && hasChildNamed st dest ent.name) = false)
    (hsp : invalidProv sp = false)
    (hmatch : ∀ fh ∈ ent.fileHandles, fh.id ≠ ent.dataFileHandleId) :
    createdByOf ent = none ∧
    ∃ nid nf st', copyFile ent dest prof upd sp st = (st', .ok (nid, nf)) ∧
      (ent.externalURL = none →
        st'.downloads = st.downloads ++ [ent.id] ∧
        st'.uploads = st.uploads ++ [nf.dataFileHandleId] ∧
        (ent.dataFileHandleId < st.nextHandle → nf.dataFileHandleId ≠ ent.dataFileHandleId)) ∧
      (∀ u, ent.externalURL = some u → nf.path = some u ∧ nf.synapseStore = false ∧
        st'.downloads = st.downloads ∧ st'.uploads = st.uploads) := by
  have hcb : createdByOf ent = none := by
    unfold createdByOf
    rw [List.find?_eq_none.mpr (fun fh hfh => by simp [hmatch fh hfh])]
  have hne : createdByOf ent ≠ some prof := by
    rw [hcb]
    exact Option.noConfusion
  cases hurl : ent.externalURL with
  | none =>
    obtain ⟨nid, nf, st', hrun, hdl, hul, hss, hd⟩ :=
      copyFile_rehost_hosted ent dest prof upd sp st hcol hsp hne hurl
    exact ⟨hcb, nid, nf, st', hrun, fun _ => ⟨hdl, hul, hd⟩,
      fun u hu => Option.noConfusion hu⟩
  | some u =>
    obtain ⟨nid, nf, st', hrun, hp, hss, hdl, hul⟩ :=
      copyFile_rehost_external ent dest prof upd sp st u hcol hsp hne hurl
    refine ⟨hcb, nid, nf, st', hrun, fun hu => Option.noConfusion hu, fun u' hu' => ?_⟩
    obtain rfl : u = u' := by
      simpa using hu'
    exact ⟨hp, hss, hdl, hul⟩

/-- Witness for claim10_unmatched_handle_rehosts at File syn7, whose listing
holds handle 15 while the entity's current handle is 14. -/
theorem claim10_unmatched_handle_rehosts_witness :
    createdByOf demoFileNoMatch = none ∧
    ∃ nid nf st', copyFile demoFileNoMatch "syn9" "user1" false (some "traceback") demoState =
        (st', .ok (nid, nf)) ∧
      (demoFileNoMatch.externalURL = none →
        st'.downloads = demoState.downloads ++ [demoFileNoMatch.id] ∧
        st'.uploads = demoState.uploads ++ [nf.dataFileHandleId] ∧
        (demoFileNoMatch.dataFileHandleId < demoState.nextHandle →
          nf.dataFileHandleId ≠ demoFileNoMatch.dataFileHandleId)) ∧
      (∀ u, demoFileNoMatch.externalURL = some u → nf.path = some u ∧ nf.synapseStore = false ∧
        st'.downloads = demoState.downloads ∧ st'.uploads = demoState.uploads) :=
  claim10_unmatched_handle_rehosts demoFileNoMatch "syn9" "user1" false (some "traceback")
    demoState (by decide) (by decide) (by decide)

/-! ### Wiki tree lemmas -/

mutual
theorem subtrees_map_hdr : ∀ u : WTree,
    (subtrees u).map (fun x => hdrOf x.page) = preorder u := by
  intro u
  cases u with
  | node p ks =>
    rw [subtrees, preorder, List.map_cons, subtreesF_map_hdr ks]
    rfl

theorem subtreesF_map_hdr : ∀ ts : List WTree,
    (subtreesF ts).map (fun x => hdrOf x.page) = preorderF ts := by
  intro ts
  cases ts with
  | nil => rfl
  | cons t rest =>
    rw [subtreesF, preorderF, List.map_append, subtrees_map_hdr t, subtreesF_map_hdr rest]
end

theorem self_mem_subtrees (u : WTree) : u ∈ subtrees u := by
  cases u with
  | node p ks =>
    rw [subtrees]
    exact List.mem_cons_self _ _

theorem mem_subtreesF_of_mem (t : WTree) (ts : List WTree) (hmem : t ∈ ts) :
    ∀ x ∈ subtrees t, x ∈ subtreesF ts := by
  induction ts with
  | nil => cases hmem
  | cons u rest ih =>
    intro x hx
    rw [subtreesF]
    rcases List.mem_cons.mp hmem with rfl | hmem2
    · exact List.mem_append.mpr (Or.inl hx)
    · exact List.mem_append.mpr (Or.inr (ih hmem2 x hx))

mutual
theorem subtrees_trans : ∀ (u s : WTree), s ∈ subtrees u → ∀ x ∈ subtrees s, x ∈ subtrees u := by
  intro u s hs x hx
  cases u with
  | node p ks =>
    rw [subtrees] at hs ⊢
    rcases List.mem_cons.mp hs with rfl | hs2
    · exact hx
    · exact List.mem_cons.mpr (Or.inr (subtreesF_trans ks s hs2 x hx))

theorem subtreesF_trans : ∀ (ts : List WTree) (s : WTree), s ∈ subtreesF ts →
    ∀ x ∈ subtrees s, x ∈ subtreesF ts := by
  intro ts s hs x hx
  cases ts with
  | nil => cases hs
  | cons t rest =>
    rw [subtreesF] at hs ⊢
    rcases List.mem_append.mp hs with hs2 | hs2
    · exact List.mem_append.mpr (Or.inl (subtrees_trans t s hs2 x hx))
    · exact List.mem_append.mpr (Or.inr (subtreesF_trans rest s hs2 x hx))
end

theorem kid_mem_subtrees (u c : WTree) (hc : c ∈ u.kids) : c ∈ subtrees u := by
  cases u with
  | node p ks =>
    rw [subtrees]
    rw [WTree.kids] at hc
    exact List.mem_cons.mpr (Or.inr (mem_subtreesF_of_mem c ks hc c (self_mem_subtrees c)))

mutual
theorem preorder_sublist : ∀ (u s : WTree), s ∈ subtrees u → List.Sublist (preorder s) (preorder u) := by
  intro u s hs
  cases u with
  | node p ks =>
    rw [subtrees] at hs
    rw [preorder]
    rcases List.mem_cons.mp hs with rfl | hs2
    · rw [preorder]
    · exact (preorderF_sublist ks s hs2).cons _

theorem preorderF_sublist : ∀ (ts : List WTree) (s : WTree), s ∈ subtreesF ts →
    List.Sublist (preorder s) (preorderF ts) := by
  intro ts s hs
  cases ts with
  | nil => cases hs
  | cons t rest =>
    rw [subtreesF] at hs
    rw [preorderF]
    rcases List.mem_append.mp hs with hs2 | hs2
    · exact (preorder_sublist t s hs2).trans (List.sublist_append_left _ _)
    · exact (preorderF_sublist rest s hs2).trans (List.sublist_append_right _ _)
end

mutual
theorem preorder_infix : ∀ (u s : WTree), s ∈ subtrees u →
    ∃ A B, preorder u = A ++ preorder s ++ B := by
  intro u s hs
  cases u with
  | node p ks =>
    rw [subtrees] at hs
    rcases List.mem_cons.mp hs with rfl | hs2
    · exact ⟨[], [], by simp⟩
    · obtain ⟨A, B, hAB⟩ := preorderF_infix ks s hs2
      exact ⟨hdrOf p :: A, B, by rw [preorder, hAB]; simp⟩

theorem preorderF_infix : ∀ (ts : List WTree) (s : WTree), s ∈ subtreesF ts →
    ∃ A B, preorderF ts = A ++ preorder s ++ B := by
  intro ts s hs
  cases ts with
  | nil => cases hs
  | cons t rest =>
    rw [subtreesF] at hs
    rcases List.mem_append.mp hs with hs2 | hs2
    · obtain ⟨A, B, hAB⟩ := preorder_infix t s hs2
      exact ⟨A, B ++ preorderF rest, by rw [preorderF, hAB]; simp⟩
    · obtain ⟨A, B, hAB⟩ := preorderF_infix rest s hs2
      exact ⟨preorder t ++ A, B, by rw [preorderF, hAB]; simp⟩
end

theorem preorderF_append (u v : List WTree) :
    preorderF (u ++ v) = preorderF u ++ preorderF v := by
  induction u with
  | nil => rfl
  | cons t rest ih =>
    rw [List.cons_append, preorderF, preorderF, ih, List.append_assoc]

theorem mem_preorder_of_mem_subtrees (u x : WTree) (h : x ∈ subtrees u) :
    hdrOf x.page ∈ preorder u := by
  rw [← subtrees_map_hdr u]
  exact List.mem_map_of_mem _ h

theorem exists_subtree_of_mem_preorder (u : WTree) (i : WikiHeader) (h : i ∈ preorder u) :
    ∃ x ∈ subtrees u, hdrOf x.page = i := by
  rw [← subtrees_map_hdr u] at h
  obtain ⟨x, hx, hxi⟩ := List.mem_map.mp h
  exact ⟨x, hx, hxi⟩

theorem hdr_id (p : WikiPage) : (hdrOf p).id = p.id := rfl

theorem hdr_parentId (p : WikiPage) : (hdrOf p).parentId = p.parentId := rfl

theorem subtrees_map_id (u : WTree) :
    (subtrees u).map (fun x => x.page.id) = (preorder u).map WikiHeader.id := by
  rw [← subtrees_map_hdr u, List.map_map]
  rfl

theorem subtree_id_inj (t : WTree) (hw : wfW t) :
    ∀ x ∈ subtrees t, ∀ y ∈ subtrees t, x.page.id = y.page.id → x = y := by
  have hnd : ((subtrees t).map (fun x => x.page.id)).Nodup := by
    rw [subtrees_map_id]
    exact hw.1
  exact fun x hx y hy => List.inj_on_of_nodup_map hnd hx hy

mutual
theorem parent_or_root : ∀ (u x : WTree), x ∈ subtrees u →
    x = u ∨ ∃ p ∈ subtrees u, x ∈ p.kids := by
  intro u x hx
  cases u with
  | node q ks =>
    rw [subtrees] at hx
    rcases List.mem_cons.mp hx with rfl | hx2
    · exact Or.inl rfl
    · rcases parent_or_rootF ks x hx2 with hmem | ⟨p, hp, hkid⟩
      · exact Or.inr ⟨.node q ks, self_mem_subtrees _, by rw [WTree.kids]; exact hmem⟩
      · exact Or.inr ⟨p, by rw [subtrees]; exact List.mem_cons.mpr (Or.inr hp), hkid⟩

theorem parent_or_rootF : ∀ (ts : List WTree) (x : WTree), x ∈ subtreesF ts →
    x ∈ ts ∨ ∃ p ∈ subtreesF ts, x ∈ p.kids := by
  intro ts x hx
  cases ts with
  | nil => cases hx
  | cons t rest =>
    rw [subtreesF] at hx
    rcases List.mem_append.mp hx with hx2 | hx2
    · rcases parent_or_root t x hx2 with rfl | ⟨p, hp, hkid⟩
      · exact Or.inl (List.mem_cons_self _ _)
      · exact Or.inr ⟨p, by rw [subtreesF]; exact List.mem_append.mpr (Or.inl hp), hkid⟩
    · rcases parent_or_rootF rest x hx2 with hmem | ⟨p, hp, hkid⟩
      · exact Or.inl (List.mem_cons.mpr (Or.inr hmem))
      · exact Or.inr ⟨p, by rw [subtreesF]; exact List.mem_append.mpr (Or.inr hp), hkid⟩
end

theorem child_of_parentId (t : WTree) (hw : wfW t) (s x : WTree)
    (hs : s ∈ subtrees t) (hx : x ∈ subtrees t)
    (hp : x.page.parentId = some s.page.id) : x ∈ s.kids := by
  rcases parent_or_root t x hx with rfl | ⟨q, hq, hkid⟩
  · rw [hw.2.2] at hp
    cases hp
  · have hq2 : x.page.parentId = some q.page.id := hw.2.1 q hq x hkid
    rw [hp] at hq2
    have : s = q := subtree_id_inj t hw s hs q hq (by injection hq2)
    rw [this]
    exact hkid

mutual
theorem findSubtree_sound : ∀ (u : WTree) (i : String) (x : WTree),
    findSubtree u i = some x → x ∈ subtrees u ∧ x.page.id = i := by
  intro u i x h
  cases u with
  | node p ks =>
    rw [findSubtree] at h
    split at h
    · rename_i hid
      obtain rfl : WTree.node p ks = x := by injection h
      exact ⟨self_mem_subtrees _, by rw [WTree.page]; exact hid⟩
    · obtain ⟨hmem, hid⟩ := findSubtreeF_sound ks i x h
      exact ⟨by rw [subtrees]; exact List.mem_cons.mpr (Or.inr hmem), hid⟩

theorem findSubtreeF_sound : ∀ (ts : List WTree) (i : String) (x : WTree),
    findSubtreeF ts i = some x → x ∈ subtreesF ts ∧ x.page.id = i := by
  intro ts i x h
  cases ts with
  | nil => cases h
  | cons t rest =>
    rw [findSubtreeF] at h
    split at h
    · rename_i y hy
      have hxy : y = x := by injection h
      subst hxy
      obtain ⟨hmem, hid⟩ := findSubtree_sound t i y hy
      exact ⟨by rw [subtreesF]; exact List.mem_append.mpr (Or.inl hmem), hid⟩
    · obtain ⟨hmem, hid⟩ := findSubtreeF_sound rest i x h
      exact ⟨by rw [subtreesF]; exact List.mem_append.mpr (Or.inr hmem), hid⟩
end

mutual
theorem findSubtree_isSome : ∀ (u s : WTree), s ∈ subtrees u →
    ∃ x, findSubtree u s.page.id = some x := by
  intro u s hs
  cases u with
  | node p ks =>
    rw [findSubtree]
    by_cases hid : p.id = s.page.id
    · exact ⟨.node p ks, by rw [if_pos hid]⟩
    · rw [subtrees] at hs
      rcases List.mem_cons.mp hs with rfl | hs2
      · rw [WTree.page] at hid
        exact absurd rfl hid
      · rw [if_neg hid]
        exact findSubtreeF_isSome ks s hs2

theorem findSubtreeF_isSome : ∀ (ts : List WTree) (s : WTree), s ∈ subtreesF ts →
    ∃ x, findSubtreeF ts s.page.id = some x := by
  intro ts s hs
  cases ts with
  | nil => cases hs
  | cons t rest =>
    rw [findSubtreeF]
    rcases List.mem_append.mp (by rw [subtreesF] at hs; exact hs) with hs2 | hs2
    · obtain ⟨x, hx⟩ := findSubtree_isSome t s hs2
      exact ⟨x, by rw [hx]⟩
    · cases hfind : findSubtree t s.page.id with
      | some y => exact ⟨y, rfl⟩
      | none => exact findSubtreeF_isSome rest s hs2
end

theorem findSubtree_eq (t : WTree) (hw : wfW t) (s : WTree) (hs : s ∈ subtrees t) :
    findSubtree t s.page.id = some s := by
  obtain ⟨x, hx⟩ := findSubtree_isSome t s hs
  obtain ⟨hmem, hid⟩ := findSubtree_sound t s.page.id x hx
  rw [hx, subtree_id_inj t hw x hmem s hs hid]

theorem ht_pos (u : WTree) : 1 ≤ ht u := by
  cases u with
  | node p ks =>
    rw [ht]
    exact Nat.le_add_left 1 _

theorem ht_kid_le : ∀ (ks : List WTree) (c : WTree), c ∈ ks → ht c ≤ htF ks := by
  intro ks c hc
  induction ks with
  | nil => cases hc
  | cons t rest ih =>
    rw [htF]
    rcases List.mem_cons.mp hc with rfl | hc2
    · exact Nat.le_max_left _ _
    · exact (ih hc2).trans (Nat.le_max_right _ _)

mutual
theorem ht_le_len : ∀ u : WTree, ht u ≤ (preorder u).length := by
  intro u
  cases u with
  | node p ks =>
    rw [ht, preorder, List.length_cons]
    exact Nat.add_le_add_right (htF_le_len ks) 1

theorem htF_le_len : ∀ ts : List WTree, htF ts ≤ (preorderF ts).length := by
  intro ts
  cases ts with
  | nil => exact Nat.le_refl 0
  | cons t rest =>
    rw [htF, preorderF, List.length_append]
    exact Nat.max_le.mpr
      ⟨(ht_le_len t).trans (Nat.le_add_right _ _),
       (htF_le_len rest).trans (Nat.le_add_left _ _)⟩
end

theorem nodup_ids_subtree (t : WTree) (hw : wfW t) (s : WTree) (hs : s ∈ subtrees t) :
    ((preorder s).map WikiHeader.id).Nodup :=
  ((preorder_sublist t s hs).map _).nodup hw.1

theorem getSub_succ (wikiHeaders : List WikiHeader) (fuel : Nat) (subPageId : String)
    (mapping : List WikiHeader) :
    getSubWikiHeaders wikiHeaders (fuel + 1) subPageId mapping =
      wikiHeaders.foldl (gstep wikiHeaders fuel subPageId) mapping := rfl

theorem ht_node_eq (s : WTree) : ht s = htF s.kids + 1 := by
  cases s with
  | node p ks => rw [ht]; rfl

theorem preorder_node_eq (c : WTree) : preorder c = hdrOf c.page :: preorderF c.kids := by
  cases c with
  | node p ks => rw [preorder]; rfl

theorem root_id_mem (s : WTree) : s.page.id ∈ (preorder s).map WikiHeader.id := by
  rw [preorder_node_eq s]
  exact List.mem_cons_self _ _

theorem root_id_not_in_tail (t : WTree) (hw : wfW t) (s : WTree) (hs : s ∈ subtrees t) :
    s.page.id ∉ (preorderF s.kids).map WikiHeader.id := by
  have hnd := nodup_ids_subtree t hw s hs
  rw [preorder_node_eq s, List.map_cons] at hnd
  exact (List.nodup_cons.mp hnd).1

theorem mem_preorder_of_tail (c : WTree) (i : WikiHeader) (hi : i ∈ preorderF c.kids) :
    i ∈ preorder c := by
  rw [preorder_node_eq c]
  exact List.mem_cons.mpr (Or.inr hi)

theorem mem_preorderF_of_kid (ks : List WTree) (c : WTree) (hc : c ∈ ks)
    (i : WikiHeader) (hi : i ∈ preorder c) : i ∈ preorderF ks := by
  induction ks with
  | nil => cases hc
  | cons u rest ih =>
    rw [preorderF]
    rcases List.mem_cons.mp hc with rfl | hc2
    · exact List.mem_append.mpr (Or.inl hi)
    · exact List.mem_append.mpr (Or.inr (ih hc2))

theorem kid_id_ne_root (t : WTree) (hw : wfW t) (s : WTree) (hs : s ∈ subtrees t)
    (c : WTree) (hc : c ∈ s.kids) : c.page.id ≠ s.page.id := by
  intro heq
  apply root_id_not_in_tail t hw s hs
  rw [← heq]
  exact List.mem_map_of_mem _
    (mem_preorderF_of_kid s.kids c hc _ (by rw [preorder_node_eq c]; exact List.mem_cons_self _ _))

theorem contrib_append (t : WTree) (sub : String) (a b : List WikiHeader) :
    contrib t sub (a ++ b) = contrib t sub a ++ contrib t sub b := by
  induction a with
  | nil => rfl
  | cons i rest ih =>
    rw [List.cons_append, contrib, contrib, ih, List.append_assoc]

theorem gcontrib_untouched (t : WTree) (sub : String) (i : WikiHeader)
    (h : untouched sub i) : gcontrib t sub i = [] := by
  rw [gcontrib, if_neg h.1]
  cases hp : i.parentId with
  | none => rfl
  | some p =>
    have hps : p ≠ sub := by
      intro heq
      exact h.2 (by rw [hp, heq])
    simp [hps]

theorem contrib_untouched (t : WTree) (sub : String) (l : List WikiHeader)
    (h : ∀ i ∈ l, untouched sub i) : contrib t sub l = [] := by
  induction l with
  | nil => rfl
  | cons i rest ih =>
    rw [contrib, gcontrib_untouched t sub i (h i (List.mem_cons_self _ _)), List.nil_append]
    exact ih (fun j hj => h j (List.mem_cons.mpr (Or.inr hj)))

theorem untouched_outside (t : WTree) (hw : wfW t) (s : WTree) (hs : s ∈ subtrees t)
    (A B : List WikiHeader) (hAB : preorder t = A ++ preorder s ++ B) :
    ∀ i, i ∈ A ∨ i ∈ B → untouched s.page.id i := by
  have hnd : ((A.map WikiHeader.id ++ (preorder s).map WikiHeader.id) ++
      B.map WikiHeader.id).Nodup := by
    have := hw.1
    rw [hAB, List.map_append, List.map_append] at this
    exact this
  have hdisjB : List.Disjoint (A.map WikiHeader.id ++ (preorder s).map WikiHeader.id)
      (B.map WikiHeader.id) := (List.nodup_append.mp hnd).2.2
  have hdisjA : List.Disjoint (A.map WikiHeader.id) ((preorder s).map WikiHeader.id) :=
    (List.nodup_append.mp (List.nodup_append.mp hnd).1).2.2
  have hmemT : ∀ i, i ∈ A ∨ i ∈ B → i ∈ preorder t := by
    intro i hi
    rw [hAB]
    rcases hi with hi | hi
    · exact List.mem_append.mpr (Or.inl (List.mem_append.mpr (Or.inl hi)))
    · exact List.mem_append.mpr (Or.inr hi)
  have hidS : ∀ i, i ∈ A ∨ i ∈ B → i.id ∉ (preorder s).map WikiHeader.id := by
    intro i hi hmem
    rcases hi with hi | hi
    · exact hdisjA (List.mem_map_of_mem _ hi) hmem
    · exact hdisjB (List.mem_append.mpr (Or.inr hmem)) (List.mem_map_of_mem _ hi)
  intro i hi
  constructor
  · intro heq
    exact hidS i hi (heq ▸ root_id_mem s)
  · intro heq
    obtain ⟨x, hx, hxi⟩ := exists_subtree_of_mem_preorder t i (hmemT i hi)
    have hxp : x.page.parentId = some s.page.id := by
      rw [← hdr_parentId x.page, hxi, heq]
    have hxk : x ∈ s.kids := child_of_parentId t hw s x hs hx hxp
    apply hidS i hi
    rw [← hxi, hdr_id]
    exact List.mem_map_of_mem _
      (mem_preorder_of_tail s _ (mem_preorderF_of_kid s.kids x hxk _
        (by rw [preorder_node_eq x]; exact List.mem_cons_self _ _)))

theorem untouched_below_kid (t : WTree) (hw : wfW t) (s : WTree) (hs : s ∈ subtrees t)
    (c : WTree) (hc : c ∈ s.kids) :
    ∀ i ∈ preorderF c.kids, untouched s.page.id i := by
  intro i hi
  have hiC : i ∈ preorder c := mem_preorder_of_tail c i hi
  have hcT : c ∈ subtrees t :=
    subtrees_trans t s hs c (kid_mem_subtrees s c hc)
  constructor
  · intro heq
    apply root_id_not_in_tail t hw s hs
    rw [← heq]
    exact List.mem_map_of_mem _ (mem_preorderF_of_kid s.kids c hc i hiC)
  · intro heq
    obtain ⟨x, hx, hxi⟩ := exists_subtree_of_mem_preorder c i hiC
    have hxT : x ∈ subtrees t := subtrees_trans t c hcT x hx
    have hxp : x.page.parentId = some s.page.id := by
      rw [← hdr_parentId x.page, hxi, heq]
    have hxk : x ∈ s.kids := child_of_parentId t hw s x hs hxT hxp
    have hndK : ((preorderF s.kids).map WikiHeader.id).Nodup := by
      have hnd := nodup_ids_subtree t hw s hs
      rw [preorder_node_eq s, List.map_cons] at hnd
      exact (List.nodup_cons.mp hnd).2
    obtain ⟨u, w, huw⟩ := List.append_of_mem hxk
    have hpre : preorderF s.kids = preorderF u ++ (preorder x ++ preorderF w) := by
      rw [huw, preorderF_append, preorderF]
    rw [hpre, List.map_append] at hndK
    have hxid : x.page.id ∈ (preorder x).map WikiHeader.id := root_id_mem x
    have hiid : i.id = x.page.id := by
      rw [← hxi, hdr_id]
    rcases List.mem_append.mp (huw ▸ hc) with hcu | hcxw
    · -- c lies before x among the kids
      have hiu : i.id ∈ (preorderF u).map WikiHeader.id :=
        List.mem_map_of_mem _ (mem_preorderF_of_kid u c hcu i hiC)
      exact (List.nodup_append.mp hndK).2.2 hiu
        (by rw [List.map_append]; exact List.mem_append.mpr (Or.inl (hiid ▸ hxid)))
    · rcases List.mem_cons.mp hcxw with rfl | hcw
      · -- c is x itself: i sits strictly below c but carries c's id
        have hndc := nodup_ids_subtree t hw c hcT
        rw [preorder_node_eq c, List.map_cons] at hndc
        exact (List.nodup_cons.mp hndc).1
          (by rw [hdr_id, ← hiid]; exact List.mem_map_of_mem _ hi)
      · -- c lies after x among the kids
        have hiw : i.id ∈ (preorderF w).map WikiHeader.id :=
          List.mem_map_of_mem _ (mem_preorderF_of_kid w c hcw i hiC)
        have hndXW : ((preorder x ++ preorderF w).map WikiHeader.id).Nodup :=
          (List.nodup_append.mp hndK).2.1
        rw [List.map_append] at hndXW
        exact (List.nodup_append.mp hndXW).2.2 (hiid ▸ hxid) hiw

theorem contrib_kid (t : WTree) (hw : wfW t) (s : WTree) (hs : s ∈ subtrees t)
    (c : WTree) (hc : c ∈ s.kids) :
    contrib t s.page.id (preorder c) = preorder c := by
  have hcT : c ∈ subtrees t :=
    subtrees_trans t s hs c (kid_mem_subtrees s c hc)
  rw [preorder_node_eq c, contrib]
  have hg : gcontrib t s.page.id (hdrOf c.page) = preorder c := by
    rw [gcontrib, if_neg (by rw [hdr_id]; exact kid_id_ne_root t hw s hs c hc)]
    have hp : (hdrOf c.page).parentId = some s.page.id := by
      rw [hdr_parentId]
      exact hw.2.1 s hs c hc
    rw [hp]
    simp [hdr_id, findSubtree_eq t hw c hcT]
  rw [hg, contrib_untouched t s.page.id _ (untouched_below_kid t hw s hs c hc),
    List.append_nil, ← preorder_node_eq c]

theorem contrib_kidsF (t : WTree) (hw : wfW t) (s : WTree) (hs : s ∈ subtrees t) :
    ∀ ks : List WTree, (∀ c ∈ ks, c ∈ s.kids) →
      contrib t s.page.id (preorderF ks) = preorderF ks := by
  intro ks
  induction ks with
  | nil => intro _; rfl
  | cons c rest ih =>
    intro hks
    rw [preorderF, contrib_append, contrib_kid t hw s hs c (hks c (List.mem_cons_self _ _)),
      ih (fun d hd => hks d (List.mem_cons.mpr (Or.inr hd)))]

theorem contrib_self (t : WTree) (hw : wfW t) (s : WTree) (hs : s ∈ subtrees t) :
    contrib t s.page.id (preorder s) = preorder s := by
  rw [preorder_node_eq s, contrib]
  rw [show gcontrib t s.page.id (hdrOf s.page) = [hdrOf s.page] by
    rw [gcontrib, if_pos (hdr_id s.page)]]
  rw [contrib_kidsF t hw s hs s.kids (fun c hc => hc), List.singleton_append,
    ← preorder_node_eq s]

theorem gstep_untouched (wikiHeaders : List WikiHeader) (fuel : Nat) (sub : String)
    (i : WikiHeader) (h : untouched sub i) : ∀ acc, gstep wikiHeaders fuel sub acc i = acc := by
  intro acc
  rw [gstep, if_neg h.1]
  cases hp : i.parentId with
  | none => rfl
  | some p =>
    have hps : p ≠ sub := fun heq => h.2 (by rw [hp, heq])
    simp [hps]

theorem foldl_gstep_skip (wikiHeaders : List WikiHeader) (fuel : Nat) (sub : String)
    (A : List WikiHeader) (hA : ∀ i ∈ A, untouched sub i) :
    ∀ acc, A.foldl (gstep wikiHeaders fuel sub) acc = acc := by
  induction A with
  | nil => intro acc; rfl
  | cons i rest ih =>
    intro acc
    rw [List.foldl_cons, gstep_untouched wikiHeaders fuel sub i (hA i (List.mem_cons_self _ _))]
    exact ih (fun j hj => hA j (List.mem_cons.mpr (Or.inr hj))) acc

/-- Full characterisation of _getSubWikiHeaders on the flattened header list of
a wellformed source wiki tree, for a requested page s of the tree and fuel at
least the height of s's subtree: started on a nonempty shared mapping it
appends exactly the preorder of s's subtree, and started on the empty mapping
it returns the preorder of s's subtree with the root header's parentId
stripped (the synthetic-root pop). -/
theorem getSub_spec (t : WTree) (hw : wfW t) :
    ∀ (fuel : Nat) (s : WTree), s ∈ subtrees t → ht s ≤ fuel →
      (∀ m, m ≠ [] → getSubWikiHeaders (preorder t) fuel s.page.id m = m ++ preorder s) ∧
      getSubWikiHeaders (preorder t) fuel s.page.id [] =
        { hdrOf s.page with parentId := none } :: preorderF s.kids := by
  intro fuel
  induction fuel with
  | zero =>
    intro s hs hht
    exact absurd ((ht_pos s).trans hht) (by omega)
  | succ f ihf =>
    intro s hs hht
    have scanMain : ∀ (l : List WikiHeader), (∀ i ∈ l, i ∈ preorder t) →
        ∀ acc, acc ≠ [] →
          l.foldl (gstep (preorder t) f s.page.id) acc = acc ++ contrib t s.page.id l := by
      intro l
      induction l with
      | nil =>
        intro _ acc _
        rw [List.foldl_nil, contrib, List.append_nil]
      | cons i l' ihl =>
        intro hmem acc hacc
        have hmem' : ∀ j ∈ l', j ∈ preorder t :=
          fun j hj => hmem j (List.mem_cons.mpr (Or.inr hj))
        rw [List.foldl_cons, contrib]
        by_cases hid : i.id = s.page.id
        · have hne : acc.isEmpty = false := by
            cases acc with
            | nil => exact absurd rfl hacc
            | cons a as => rfl
          have hstep : gstep (preorder t) f s.page.id acc i = acc ++ [i] := by
            rw [gstep, if_pos hid, hne]
            simp
          have hg : gcontrib t s.page.id i = [i] := by
            rw [gcontrib, if_pos hid]
          rw [hstep, ihl hmem' (acc ++ [i]) (by simp), hg, List.append_assoc]
        · cases hpar : i.parentId with
          | none =>
            have hu : untouched s.page.id i :=
              ⟨hid, fun h => by rw [hpar] at h; cases h⟩
            rw [gstep_untouched _ _ _ i hu, gcontrib_untouched t _ i hu, List.nil_append]
            exact ihl hmem' acc hacc
          | some p =>
            by_cases hps : p = s.page.id
            · obtain ⟨x, hx, hxi⟩ :=
                exists_subtree_of_mem_preorder t i (hmem i (List.mem_cons_self _ _))
              have hxp : x.page.parentId = some s.page.id := by
                rw [← hdr_parentId x.page, hxi, hpar, hps]
              have hxk : x ∈ s.kids := child_of_parentId t hw s x hs hx hxp
              have hxid : i.id = x.page.id := by
                rw [← hxi, hdr_id]
              have hhtx : ht x ≤ f := by
                have h1 := ht_kid_le s.kids x hxk
                have h2 := ht_node_eq s
                omega
              have hstep : gstep (preorder t) f s.page.id acc i =
                  getSubWikiHeaders (preorder t) f i.id acc := by
                rw [gstep, if_neg hid]
                simp [hpar, hps]
              have hrec : getSubWikiHeaders (preorder t) f i.id acc = acc ++ preorder x := by
                rw [hxid]
                exact (ihf x hx hhtx).1 acc hacc
              have hg : gcontrib t s.page.id i = preorder x := by
                rw [gcontrib, if_neg hid]
                simp [hpar, hps, hxid, findSubtree_eq t hw x hx]
              rw [hstep, hrec, ihl hmem' (acc ++ preorder x)
                (by rw [preorder_node_eq x]; simp), hg, List.append_assoc]
            · have hu : untouched s.page.id i :=
                ⟨hid, fun h => by
                  rw [hpar] at h
                  exact hps (by injection h)⟩
              rw [gstep_untouched _ _ _ i hu, gcontrib_untouched t _ i hu, List.nil_append]
              exact ihl hmem' acc hacc
    obtain ⟨A, B, hAB⟩ := preorder_infix t s hs
    have hAmem : ∀ i ∈ A, i ∈ preorder t := by
      intro i hi
      rw [hAB]
      exact List.mem_append.mpr (Or.inl (List.mem_append.mpr (Or.inl hi)))
    have hBmem : ∀ i ∈ B, i ∈ preorder t := by
      intro i hi
      rw [hAB]
      exact List.mem_append.mpr (Or.inr hi)
    have hSmem : ∀ i ∈ preorder s, i ∈ preorder t := by
      intro i hi
      rw [hAB]
      exact List.mem_append.mpr (Or.inl (List.mem_append.mpr (Or.inr hi)))
    have hAun : ∀ i ∈ A, untouched s.page.id i :=
      fun i hi => untouched_outside t hw s hs A B hAB i (Or.inl hi)
    have hBun : ∀ i ∈ B, untouched s.page.id i :=
      fun i hi => untouched_outside t hw s hs A B hAB i (Or.inr hi)
    have hcontribT : contrib t s.page.id (preorder t) = preorder s := by
      rw [hAB, contrib_append, contrib_append, contrib_untouched t _ A hAun,
        contrib_self t hw s hs, contrib_untouched t _ B hBun, List.nil_append,
        List.append_nil]
    constructor
    · intro m hm
      rw [getSub_succ, scanMain (preorder t) (fun i hi => hi) m hm, hcontribT]
    · rw [getSub_succ]
      nth_rewrite 2 [hAB]
      rw [List.foldl_append, List.foldl_append,
        foldl_gstep_skip _ _ _ A hAun, preorder_node_eq s, List.foldl_cons]
      have hstep0 : gstep (preorder t) f s.page.id [] (hdrOf s.page) =
          [{ hdrOf s.page with parentId := none }] := by
        rw [gstep, if_pos (hdr_id s.page)]
        rfl
      rw [hstep0,
        scanMain (preorderF s.kids)
          (fun i hi => hSmem i (mem_preorder_of_tail s i hi)) _ (by simp),
        contrib_kidsF t hw s hs s.kids (fun c hc => hc),
        scanMain B hBmem _ (by simp),
        contrib_untouched t _ B hBun, List.append_nil, List.singleton_append]

theorem subtrees_node_eq (s : WTree) : subtrees s = s :: subtreesF s.kids := by
  cases s with
  | node p ks => rw [subtrees]; rfl

theorem find?_append_left (m δ : List (String × String)) (f : String × String → Bool)
    (h : (m.find? f).isSome) : (m ++ δ).find? f = m.find? f := by
  induction m with
  | nil => simp [List.find?] at h
  | cons a rest ih =>
    by_cases hfa : f a = true
    · rw [List.cons_append, List.find?_cons_of_pos _ hfa, List.find?_cons_of_pos _ hfa]
    · rw [List.find?_cons_of_neg _ hfa] at h
      rw [List.cons_append, List.find?_cons_of_neg _ hfa, List.find?_cons_of_neg _ hfa]
      exact ih h

theorem find?_append_right (m δ : List (String × String)) (f : String × String → Bool)
    (h : m.find? f = none) : (m ++ δ).find? f = δ.find? f := by
  induction m with
  | nil => rfl
  | cons a rest ih =>
    by_cases hfa : f a = true
    · rw [List.find?_cons_of_pos _ hfa] at h
      cases h
    · rw [List.find?_cons_of_neg _ hfa] at h
      rw [List.cons_append, List.find?_cons_of_neg _ hfa]
      exact ih h

theorem find?_none_of_not_mem_keys (m : List (String × String)) (p : String)
    (h : p ∉ keys m) : m.find? (fun q => q.1 = p) = none := by
  rw [List.find?_eq_none]
  intro q hq
  simp only [decide_eq_true_eq]
  intro hqp
  exact h (by rw [← hqp]; exact List.mem_map_of_mem _ hq)

theorem keys_append (m δ : List (String × String)) : keys (m ++ δ) = keys m ++ keys δ := by
  unfold keys
  rw [List.map_append]

theorem processHeaders_append (t : WTree) (dsp : Option String) :
    ∀ (xs ys : List WikiHeader) (map0 : List (String × String))
      (wikis : List NewWiki) (ctr : Nat),
      processHeaders t dsp (xs ++ ys) map0 wikis ctr =
        match processHeaders t dsp xs map0 wikis ctr with
        | .error e => .error e
        | .ok (m1, w1, c1) => processHeaders t dsp ys m1 w1 c1 := by
  intro xs
  induction xs with
  | nil =>
    intro ys map0 wikis ctr
    rfl
  | cons i rest ih =>
    intro ys map0 wikis ctr
    rw [List.cons_append, processHeaders, processHeaders]
    cases hfind : findSubtree t i.id with
    | none => rfl
    | some sx =>
      dsimp only
      cases hpar : i.parentId with
      | some q =>
        dsimp only
        cases hpp : sx.page.parentId with
        | none => rfl
        | some p =>
          dsimp only
          cases hlk : (List.find? (fun q2 => q2.1 = p) map0).map Prod.snd with
          | none => rfl
          | some np =>
            dsimp only
            exact ih ys _ _ _
      | none =>
        dsimp only
        cases dsp with
        | some d => exact ih ys _ _ _
        | none => exact ih ys _ _ _

theorem isSome_of_map_eq_some {o : Option (String × String)} {v : String}
    (h : o.map Prod.snd = some v) : o.isSome = true := by
  cases o with
  | none => cases h
  | some a => rfl

mutual
/-- Page-creation loop over the preorder header list of one subtree x whose
root parent is already mapped: it succeeds, extends wikiIdMap by exactly the
ids of x's pages in preorder order, and creates for every page of x one new
wiki whose id is the mapped value of its source id and whose parent is the
mapped value of its source parent. -/
theorem processHeaders_tree (t : WTree) (hw : wfW t) (dsp : Option String) :
    ∀ (x : WTree), x ∈ subtrees t →
    ∀ (map0 : List (String × String)) (wikis0 : List NewWiki) (ctr0 : Nat) (pid : String),
      x.page.parentId = some pid →
      (map0.find? (fun q => q.1 = pid)).isSome = true →
      (∀ k ∈ keys map0, k ∉ (preorder x).map WikiHeader.id) →
      ∃ mΔ wΔ ctr1,
        processHeaders t dsp (preorder x) map0 wikis0 ctr0 =
          .ok (map0 ++ mΔ, wikis0 ++ wΔ, ctr1) ∧
        keys mΔ = (preorder x).map WikiHeader.id ∧
        (∀ w ∈ wΔ, ∃ y ∈ subtrees x, w.srcId = y.page.id ∧
          (((map0 ++ mΔ).find? (fun q => q.1 = y.page.id)).map Prod.snd = some w.id) ∧
          ∃ qid, y.page.parentId = some qid ∧
            w.parentId = ((map0 ++ mΔ).find? (fun q => q.1 = qid)).map Prod.snd ∧
            ((map0 ++ mΔ).find? (fun q => q.1 = qid)).isSome = true) ∧
        (∀ y ∈ subtrees x, ∃ w ∈ wΔ, w.srcId = y.page.id) := by
  intro x
  cases x with
  | node p ks =>
    intro hx map0 wikis0 ctr0 pid hpid hsome hdisj
    have hkids : ∀ c ∈ ks, c.page.parentId = some p.id := by
      intro c hc
      exact hw.2.1 (.node p ks) hx c hc
    have hpidne : p.id ∉ keys map0 := by
      intro hmem
      exact hdisj p.id hmem (root_id_mem (.node p ks))
    obtain ⟨fv, hfv⟩ := Option.isSome_iff_exists.mp hsome
    have hnp : (map0.find? (fun q => q.1 = pid)).map Prod.snd = some fv.2 := by
      rw [hfv]; rfl
    have hrun : processHeaders t dsp (preorder (.node p ks)) map0 wikis0 ctr0 =
        processHeaders t dsp (preorderF ks) (map0 ++ [(p.id, newWikiId ctr0)])
          (wikis0 ++ [mkChildWiki ctr0 fv.2 p]) (ctr0 + 1) := by
      rw [preorder_node_eq, processHeaders]
      rw [show (hdrOf (WTree.node p ks).page).id = (WTree.node p ks).page.id from rfl,
        findSubtree_eq t hw _ hx]
      dsimp only
      rw [show (hdrOf (WTree.node p ks).page).parentId = (WTree.node p ks).page.parentId from rfl,
        hpid]
      dsimp only
      rw [hnp]
      dsimp only
      rw [show (WTree.node p ks).page.id = p.id from rfl,
        dinsert_eq_append map0 p.id (newWikiId ctr0) hpidne]
      rfl
    have hndx : ((preorder (WTree.node p ks)).map WikiHeader.id).Nodup :=
      nodup_ids_subtree t hw _ hx
    rw [preorder_node_eq, List.map_cons] at hndx
    have hndK : ((preorderF (WTree.node p ks).kids).map WikiHeader.id).Nodup :=
      (List.nodup_cons.mp hndx).2
    have hrootK : (hdrOf (WTree.node p ks).page).id ∉
        ((preorderF (WTree.node p ks).kids).map WikiHeader.id) :=
      (List.nodup_cons.mp hndx).1
    obtain ⟨mΔ2, wΔ2, ctr1, hrun2, hkeys2, hw2, hcov2⟩ :=
      processHeaders_forest t hw dsp ks
        (fun c hc => subtrees_trans t _ hx c (kid_mem_subtrees _ c (by rw [WTree.kids]; exact hc)))
        (map0 ++ [(p.id, newWikiId ctr0)])
        (wikis0 ++ [mkChildWiki ctr0 fv.2 p]) (ctr0 + 1)
        (by
          intro c hc
          refine ⟨p.id, hkids c hc, ?_⟩
          rw [find?_append_right map0 _ _ (find?_none_of_not_mem_keys map0 p.id hpidne)]
          rw [List.find?_cons_of_pos _ (by simp)]
          rfl)
        (by
          intro k hk
          rw [keys_append] at hk
          rcases List.mem_append.mp hk with hk | hk
          · intro hmem
            exact hdisj k hk
              (by rw [preorder_node_eq, List.map_cons]; exact List.mem_cons.mpr (Or.inr hmem))
          · have : k = p.id := by
              simpa [keys] using hk
            subst this
            exact fun hmem => hrootK hmem)
        hndK
    refine ⟨(p.id, newWikiId ctr0) :: mΔ2, mkChildWiki ctr0 fv.2 p :: wΔ2,
      ctr1, ?_, ?_, ?_, ?_⟩
    · rw [hrun, hrun2, ← List.append_cons map0 _ mΔ2, ← List.append_cons wikis0 _ wΔ2]
    · rw [preorder_node_eq, List.map_cons]
      rw [show keys ((p.id, newWikiId ctr0) :: mΔ2) = p.id :: keys mΔ2 from rfl, hkeys2]
      rfl
    · intro w hwmem
      have hM : map0 ++ ((p.id, newWikiId ctr0) :: mΔ2) =
          (map0 ++ [(p.id, newWikiId ctr0)]) ++ mΔ2 := List.append_cons map0 _ mΔ2
      rcases List.mem_cons.mp hwmem with rfl | hwmem2
      · refine ⟨.node p ks, self_mem_subtrees _, rfl, ?_, pid, hpid, ?_, ?_⟩
        · rw [hM, show (WTree.node p ks).page.id = p.id from rfl]
          rw [find?_append_left _ mΔ2 _
            (by
              rw [find?_append_right map0 _ _ (find?_none_of_not_mem_keys map0 p.id hpidne)]
              rw [List.find?_cons_of_pos _ (by simp)]
              rfl)]
          rw [find?_append_right map0 _ _ (find?_none_of_not_mem_keys map0 p.id hpidne)]
          rw [List.find?_cons_of_pos _ (by simp)]
          rfl
        · rw [hM, find?_append_left _ mΔ2 _
            (by rw [find?_append_left map0 _ _ (isSome_of_map_eq_some hnp)]; exact hsome),
            find?_append_left map0 _ _ (isSome_of_map_eq_some hnp), hnp]
          rfl
        · rw [hM, find?_append_left _ mΔ2 _
            (by rw [find?_append_left map0 _ _ (isSome_of_map_eq_some hnp)]; exact hsome),
            find?_append_left map0 _ _ (isSome_of_map_eq_some hnp)]
          exact hsome
      · obtain ⟨y, hy, hsrc, hfind, qid, hq, hpar2, hsome2⟩ := hw2 w hwmem2
        refine ⟨y, ?_, hsrc, ?_, qid, hq, ?_, ?_⟩
        · rw [subtrees_node_eq]
          exact List.mem_cons.mpr (Or.inr (by rw [WTree.kids]; exact hy))
        · rw [hM]; exact hfind
        · rw [hM]; exact hpar2
        · rw [hM]; exact hsome2
    · intro y hy
      rw [subtrees_node_eq] at hy
      rcases List.mem_cons.mp hy with rfl | hy2
      · exact ⟨_, List.mem_cons_self _ _, rfl⟩
      · obtain ⟨w, hwm, hsrc⟩ := hcov2 y (by rw [WTree.kids] at hy2; exact hy2)
        exact ⟨w, List.mem_cons.mpr (Or.inr hwm), hsrc⟩

/-- Page-creation loop over the concatenated preorder header lists of a list
of subtrees whose root parents are already mapped. -/
theorem processHeaders_forest (t : WTree) (hw : wfW t) (dsp : Option String) :
    ∀ (ks : List WTree), (∀ c ∈ ks, c ∈ subtrees t) →
    ∀ (map0 : List (String × String)) (wikis0 : List NewWiki) (ctr0 : Nat),
      (∀ c ∈ ks, ∃ pid, c.page.parentId = some pid ∧
        (map0.find? (fun q => q.1 = pid)).isSome = true) →
      (∀ k ∈ keys map0, k ∉ (preorderF ks).map WikiHeader.id) →
      ((preorderF ks).map WikiHeader.id).Nodup →
      ∃ mΔ wΔ ctr1,
        processHeaders t dsp (preorderF ks) map0 wikis0 ctr0 =
          .ok (map0 ++ mΔ, wikis0 ++ wΔ, ctr1) ∧
        keys mΔ = (preorderF ks).map WikiHeader.id ∧
        (∀ w ∈ wΔ, ∃ y ∈ subtreesF ks, w.srcId = y.page.id ∧
          (((map0 ++ mΔ).find? (fun q => q.1 = y.page.id)).map Prod.snd = some w.id) ∧
          ∃ qid, y.page.parentId = some qid ∧
            w.parentId = ((map0 ++ mΔ).find? (fun q => q.1 = qid)).map Prod.snd ∧
            ((map0 ++ mΔ).find? (fun q => q.1 = qid)).isSome = true) ∧
        (∀ y ∈ subtreesF ks, ∃ w ∈ wΔ, w.srcId = y.page.id) := by
  intro ks
  cases ks with
  | nil =>
    intro _ map0 wikis0 ctr0 _ _ _
    refine ⟨[], [], ctr0, ?_, rfl, ?_, ?_⟩
    · rw [List.append_nil, List.append_nil]
      rfl
    · intro w hwm
      cases hwm
    · intro y hy
      cases hy
  | cons c ks2 =>
    intro hmem map0 wikis0 ctr0 hpar hdisj hnd
    have hndc : ((preorder c).map WikiHeader.id).Nodup := by
      rw [preorderF, List.map_append] at hnd
      exact (List.nodup_append.mp hnd).1
    have hndr : ((preorderF ks2).map WikiHeader.id).Nodup := by
      rw [preorderF, List.map_append] at hnd
      exact (List.nodup_append.mp hnd).2.1
    have hdisjCR : List.Disjoint ((preorder c).map WikiHeader.id)
        ((preorderF ks2).map WikiHeader.id) := by
      rw [preorderF, List.map_append] at hnd
      exact (List.nodup_append.mp hnd).2.2
    obtain ⟨pidc, hpidc, hsomec⟩ := hpar c (List.mem_cons_self _ _)
    obtain ⟨mΔ1, wΔ1, ctrA, hrun1, hkeys1, hw1, hcov1⟩ :=
      processHeaders_tree t hw dsp c (hmem c (List.mem_cons_self _ _)) map0 wikis0 ctr0
        pidc hpidc hsomec
        (fun k hk hmem2 => hdisj k hk
          (by rw [preorderF, List.map_append]; exact List.mem_append.mpr (Or.inl hmem2)))
    obtain ⟨mΔ2, wΔ2, ctr1, hrun2, hkeys2, hw2, hcov2⟩ :=
      processHeaders_forest t hw dsp ks2
        (fun d hd => hmem d (List.mem_cons.mpr (Or.inr hd)))
        (map0 ++ mΔ1) (wikis0 ++ wΔ1) ctrA
        (by
          intro d hd
          obtain ⟨pidd, hpidd, hsomed⟩ := hpar d (List.mem_cons.mpr (Or.inr hd))
          exact ⟨pidd, hpidd, by rw [find?_append_left map0 mΔ1 _ hsomed]; exact hsomed⟩)
        (by
          intro k hk
          rw [keys_append] at hk
          rcases List.mem_append.mp hk with hk | hk
          · exact fun hmem2 => hdisj k hk
              (by rw [preorderF, List.map_append]; exact List.mem_append.mpr (Or.inr hmem2))
          · rw [hkeys1] at hk
            exact fun hmem2 => hdisjCR hk hmem2)
        hndr
    refine ⟨mΔ1 ++ mΔ2, wΔ1 ++ wΔ2, ctr1, ?_, ?_, ?_, ?_⟩
    · rw [preorderF, processHeaders_append, hrun1]
      dsimp only
      rw [hrun2, List.append_assoc, List.append_assoc]
    · rw [preorderF, List.map_append, keys_append, hkeys1, hkeys2]
    · intro w hwm
      have hM : map0 ++ (mΔ1 ++ mΔ2) = (map0 ++ mΔ1) ++ mΔ2 :=
        (List.append_assoc map0 mΔ1 mΔ2).symm
      rcases List.mem_append.mp hwm with hwm1 | hwm2
      · obtain ⟨y, hy, hsrc, hfind, qid, hq, hpar2, hsome2⟩ := hw1 w hwm1
        refine ⟨y, by rw [subtreesF]; exact List.mem_append.mpr (Or.inl hy), hsrc, ?_,
          qid, hq, ?_, ?_⟩
        · rw [hM, find?_append_left _ mΔ2 _ (isSome_of_map_eq_some hfind)]
          exact hfind
        · rw [hM, find?_append_left _ mΔ2 _ hsome2]
          exact hpar2
        · rw [hM, find?_append_left _ mΔ2 _ hsome2]
          exact hsome2
      · obtain ⟨y, hy, hsrc, hfind, qid, hq, hpar2, hsome2⟩ := hw2 w hwm2
        refine ⟨y, by rw [subtreesF]; exact List.mem_append.mpr (Or.inr hy), hsrc, ?_,
          qid, hq, ?_, ?_⟩
        · rw [hM]; exact hfind
        · rw [hM]; exact hpar2
        · rw [hM]; exact hsome2
    · intro y hy
      rw [subtreesF] at hy
      rcases List.mem_append.mp hy with hy1 | hy2
      · obtain ⟨w, hwm, hsrc⟩ := hcov1 y hy1
        exact ⟨w, List.mem_append.mpr (Or.inl hwm), hsrc⟩
      · obtain ⟨w, hwm, hsrc⟩ := hcov2 y hy2
        exact ⟨w, List.mem_append.mpr (Or.inr hwm), hsrc⟩
end

theorem parent_precedes_preorder (s pr x : WTree) (hpr : pr ∈ subtrees s)
    (hx : x ∈ pr.kids) :
    ∃ l1 l2 l3, (preorder s).map WikiHeader.id =
      l1 ++ pr.page.id :: (l2 ++ x.page.id :: l3) := by
  obtain ⟨A, B, hAB⟩ := preorder_infix s pr hpr
  obtain ⟨u, v, huv⟩ := List.append_of_mem hx
  refine ⟨A.map WikiHeader.id, (preorderF u).map WikiHeader.id,
    ((preorderF x.kids ++ preorderF v) ++ B).map WikiHeader.id, ?_⟩
  rw [hAB, preorder_node_eq pr, huv, preorderF_append, preorderF,
    preorder_node_eq x]
  simp [List.map_append, hdr_id, List.append_assoc]

/-- The full page-creation loop of copyWiki over the header list produced for a
(possibly restricted) source subtree s: a synthetic root header for s followed
by the preorder of s's kids.  The run succeeds from an empty map, its final
wikiIdMap keys are the ids of s's pages in preorder, the root's copy is a
parentless page, and every other copy hangs under the copy of its source
parent. -/
theorem processHeaders_root (t : WTree) (hw : wfW t) (dsp : Option String)
    (s : WTree) (hs : s ∈ subtrees t) (h0 : WikiHeader)
    (hid : h0.id = s.page.id) (hpar : h0.parentId = none) (ctr0 : Nat) :
    ∃ wikiIdMap newWikis ctr1,
      processHeaders t dsp (h0 :: preorderF s.kids) [] [] ctr0 =
        .ok (wikiIdMap, newWikis, ctr1) ∧
      keys wikiIdMap = (preorder s).map WikiHeader.id ∧
      (∀ w ∈ newWikis, ∃ y ∈ subtrees s, w.srcId = y.page.id ∧
        ((wikiIdMap.find? (fun q => q.1 = y.page.id)).map Prod.snd = some w.id) ∧
        ((y = s ∧ w.parentId = none) ∨
         (∃ z ∈ subtrees s, y ∈ z.kids ∧
           w.parentId = (wikiIdMap.find? (fun q => q.1 = z.page.id)).map Prod.snd ∧
           (wikiIdMap.find? (fun q => q.1 = z.page.id)).isSome = true))) ∧
      (∀ y ∈ subtrees s, ∃ w ∈ newWikis, w.srcId = y.page.id) := by
  have hstep : ∃ (w0 : NewWiki) (ctr' : Nat),
      processHeaders t dsp (h0 :: preorderF s.kids) [] [] ctr0 =
        processHeaders t dsp (preorderF s.kids) [(s.page.id, w0.id)] [w0] ctr' ∧
      w0.parentId = none ∧ w0.srcId = s.page.id := by
    cases dsp with
    | some d =>
      refine ⟨{ id := d, parentId := none, title := "", markdown := s.page.markdown, attachments := s.page.attachments, srcId := s.page.id }, ctr0, ?_, rfl, rfl⟩
      rw [processHeaders, hid, findSubtree_eq t hw s hs]
      dsimp only
      rw [hpar]
      rfl
    | none =>
      refine ⟨{ id := newWikiId ctr0, parentId := none, title := s.page.title, markdown := s.page.markdown, attachments := s.page.attachments, srcId := s.page.id }, ctr0 + 1, ?_, rfl, rfl⟩
      rw [processHeaders, hid, findSubtree_eq t hw s hs]
      dsimp only
      rw [hpar]
      rfl
  obtain ⟨w0, ctr', hrun0, hw0par, hw0src⟩ := hstep
  have hndS := nodup_ids_subtree t hw s hs
  rw [preorder_node_eq s, List.map_cons] at hndS
  obtain ⟨mΔ, wΔ, ctr1, hrunF, hkeysF, hwF, hcovF⟩ :=
    processHeaders_forest t hw dsp s.kids
      (fun c hc => subtrees_trans t s hs c (kid_mem_subtrees s c hc))
      [(s.page.id, w0.id)] [w0] ctr'
      (by
        intro c hc
        refine ⟨s.page.id, hw.2.1 s hs c hc, ?_⟩
        rw [List.find?_cons_of_pos _ (by simp)]
        rfl)
      (by
        intro k hk
        have : k = s.page.id := by simpa [keys] using hk
        subst this
        exact root_id_not_in_tail t hw s hs)
      (List.nodup_cons.mp hndS).2
  have hfind0 : (([(s.page.id, w0.id)] ++ mΔ).find?
      (fun q => q.1 = s.page.id)).map Prod.snd = some w0.id := by
    rw [find?_append_left _ mΔ _ (by rw [List.find?_cons_of_pos _ (by simp)]; rfl)]
    rw [List.find?_cons_of_pos _ (by simp)]
    rfl
  refine ⟨[(s.page.id, w0.id)] ++ mΔ, [w0] ++ wΔ, ctr1, ?_, ?_, ?_, ?_⟩
  · rw [hrun0, hrunF]
  · rw [keys_append, hkeysF, preorder_node_eq s, List.map_cons, hdr_id]
    rfl
  · intro w hwm
    rcases List.mem_append.mp hwm with hwm0 | hwmF
    · have hw0 : w = w0 := by simpa using hwm0
      subst hw0
      exact ⟨s, self_mem_subtrees s, hw0src, hfind0, Or.inl ⟨rfl, hw0par⟩⟩
    · obtain ⟨y, hy, hsrc, hfind, qid, hq, hpar2, hsome2⟩ := hwF w hwmF
      have hymem : y ∈ subtrees s := by
        rw [subtrees_node_eq s]
        exact List.mem_cons.mpr (Or.inr hy)
      refine ⟨y, hymem, hsrc, hfind, Or.inr ?_⟩
      rcases parent_or_rootF s.kids y hy with hyk | ⟨p2, hp2, hyk⟩
      · have hqid : qid = s.page.id := by
          have := hw.2.1 s hs y hyk
          rw [hq] at this
          exact Option.some.inj this
        subst hqid
        exact ⟨s, self_mem_subtrees s, hyk, hpar2, hsome2⟩
      · have hp2t : p2 ∈ subtrees t := by
          apply subtrees_trans t s hs
          rw [subtrees_node_eq s]
          exact List.mem_cons.mpr (Or.inr hp2)
        have hqid : qid = p2.page.id := by
          have := hw.2.1 p2 hp2t y hyk
          rw [hq] at this
          exact Option.some.inj this
        subst hqid
        refine ⟨p2, ?_, hyk, hpar2, hsome2⟩
        rw [subtrees_node_eq s]
        exact List.mem_cons.mpr (Or.inr hp2)
  · intro y hy
    rw [subtrees_node_eq s] at hy
    rcases List.mem_cons.mp hy with rfl | hy2
    · exact ⟨w0, List.mem_append.mpr (Or.inl (List.mem_cons_self _ _)), hw0src⟩
    · obtain ⟨w, hwm, hsrc⟩ := hcovF y hy2
      exact ⟨w, List.mem_append.mpr (Or.inr hwm), hsrc⟩

theorem map_skel_foldl {α : Type} (g : List NewWiki → α → List NewWiki)
    (hg : ∀ ws a, (g ws a).map skel = ws.map skel) :
    ∀ (l : List α) (ws : List NewWiki), (l.foldl g ws).map skel = ws.map skel := by
  intro l
  induction l with
  | nil => intro ws; rfl
  | cons a l2 ih =>
    intro ws
    rw [List.foldl_cons, ih, hg]

theorem rewritePass1_skel (e d : String) (m : List (String × String)) (ws : List NewWiki) :
    (rewritePass1 e d m ws).map skel = ws.map skel := by
  rw [rewritePass1]
  apply map_skel_foldl
  intro ws2 p
  dsimp only
  induction ws2 with
  | nil => rfl
  | cons w ws3 ih =>
    rw [List.map_cons, List.map_cons, List.map_cons, ih]
    congr 1
    by_cases hc : w.id = p.2
    · rw [if_pos hc]
      rfl
    · rw [if_neg hc]

theorem rewritePass2_skel (em m : List (String × String)) (ws : List NewWiki) :
    (rewritePass2 em m ws).map skel = ws.map skel := by
  rw [rewritePass2]
  apply map_skel_foldl
  intro ws2 p
  dsimp only
  induction ws2 with
  | nil => rfl
  | cons w ws3 ih =>
    rw [List.map_cons, List.map_cons, List.map_cons, ih]
    congr 1
    by_cases hc : w.id = p.2
    · rw [if_pos hc]
      rfl
    · rw [if_neg hc]

theorem applyPasses_skel (entity destinationId : String) (uL uS : Bool)
    (eM : Option (List (String × String))) (m : List (String × String))
    (ws : List NewWiki) :
    (applyPasses entity destinationId uL uS eM m ws).map skel = ws.map skel := by
  cases uL <;> cases uS <;> cases eM <;>
    simp [applyPasses, rewritePass1_skel, rewritePass2_skel]

theorem skel_mem_exists (ws ws2 : List NewWiki) (h : ws2.map skel = ws.map skel)
    (w2 : NewWiki) (hm : w2 ∈ ws2) :
    ∃ w ∈ ws, w2.id = w.id ∧ w2.parentId = w.parentId ∧ w2.srcId = w.srcId := by
  have hmem : skel w2 ∈ ws.map skel := h ▸ List.mem_map_of_mem skel hm
  obtain ⟨w, hw, hsk⟩ := List.mem_map.mp hmem
  have h1 : w.id = w2.id := congrArg Prod.fst hsk
  have h2 : w.parentId = w2.parentId := congrArg (fun q => q.2.1) hsk
  have h3 : w.srcId = w2.srcId := congrArg (fun q => q.2.2) hsk
  exact ⟨w, hw, h1.symm, h2.symm, h3.symm⟩

/-- Evaluation of copyWikiModel once the page-creation loop's result on the
fetched (possibly restricted) header list is known. -/
theorem copyWikiModel_eq (t : WTree) (entity destinationId : String)
    (esp dsp : Option String) (uL uS : Bool) (eM : Option (List (String × String)))
    (startCtr : Nat) (oldWh : List WikiHeader)
    (hoW : (match esp with
            | some spid => getSubWikiHeaders (preorder t) (preorder t).length spid []
            | none => preorder t) = oldWh)
    (M : List (String × String)) (W : List NewWiki) (c : Nat)
    (hrun : processHeaders t dsp oldWh [] [] startCtr = .ok (M, W, c)) :
    copyWikiModel (some t) entity destinationId esp dsp uL uS eM startCtr =
      .ok (.copied M (applyPasses entity destinationId uL uS eM M W)) := by
  rw [copyWikiModel.eq_def]
  dsimp only
  rw [hoW, hrun]
  rfl

/-- Combined run of the page-creation loop from the synthetic root header of a
(possibly restricted) source subtree s followed by the rewrite passes: the
wikiIdMap lists s's page ids in preorder (so every parent's entry is recorded
before any of its children's), and the produced pages mirror the parent/child
topology of s. -/
theorem root_run_full (t : WTree) (hw : wfW t) (s : WTree) (hs : s ∈ subtrees t)
    (dsp : Option String) (h0 : WikiHeader)
    (hid : h0.id = s.page.id) (hpar : h0.parentId = none)
    (entity destinationId : String) (uL uS : Bool)
    (eM : Option (List (String × String))) (startCtr : Nat) :
    ∃ M W ctr1,
      processHeaders t dsp (h0 :: preorderF s.kids) [] [] startCtr =
        .ok (M, W, ctr1) ∧
      keys M = (preorder s).map WikiHeader.id ∧
      (∀ pr ∈ subtrees s, ∀ x ∈ pr.kids, ∃ l1 l2 l3,
        keys M = l1 ++ pr.page.id :: (l2 ++ x.page.id :: l3)) ∧
      (∀ w2 ∈ applyPasses entity destinationId uL uS eM M W, ∃ y ∈ subtrees s,
        w2.srcId = y.page.id ∧
        ((M.find? (fun q => q.1 = y.page.id)).map Prod.snd = some w2.id) ∧
        ((y = s ∧ w2.parentId = none) ∨
         (∃ z ∈ subtrees s, y ∈ z.kids ∧
           w2.parentId = (M.find? (fun q => q.1 = z.page.id)).map Prod.snd ∧
           (M.find? (fun q => q.1 = z.page.id)).isSome = true))) ∧
      (∀ y ∈ subtrees s, ∃ w2 ∈ applyPasses entity destinationId uL uS eM M W,
        w2.srcId = y.page.id) := by
  obtain ⟨M, W, ctr1, hrun, hkeys, hprops, hcov⟩ :=
    processHeaders_root t hw dsp s hs h0 hid hpar startCtr
  have hskel : (applyPasses entity destinationId uL uS eM M W).map skel = W.map skel :=
    applyPasses_skel entity destinationId uL uS eM M W
  refine ⟨M, W, ctr1, hrun, hkeys, ?_, ?_, ?_⟩
  · intro pr hpr x hx
    rw [hkeys]
    exact parent_precedes_preorder s pr x hpr hx
  · intro w2 hw2
    obtain ⟨w, hwm, hideq, hpareq, hsrceq⟩ := skel_mem_exists W _ hskel w2 hw2
    obtain ⟨y, hy, hsrc, hfind, hcases⟩ := hprops w hwm
    refine ⟨y, hy, by rw [hsrceq]; exact hsrc, by rw [hideq]; exact hfind, ?_⟩
    rcases hcases with ⟨hys, hnone⟩ | ⟨z, hz, hyk, hp, hsome⟩
    · exact Or.inl ⟨hys, by rw [hpareq]; exact hnone⟩
    · exact Or.inr ⟨z, hz, hyk, by rw [hpareq]; exact hp, hsome⟩
  · intro y hy
    obtain ⟨w, hwm, hsrc⟩ := hcov y hy
    obtain ⟨v, hvm, hideq, hpareq, hsrceq⟩ :=
      skel_mem_exists (applyPasses entity destinationId uL uS eM M W) W hskel.symm w hwm
    exact ⟨v, hvm, by rw [← hsrceq]; exact hsrc⟩

/-- CLAIM C3: for every source wiki tree, whether copied whole (no
entitySubPageId, the requested subtree is the root) or restricted to a
sub-page, copyWiki succeeds and processes pages in an order in which every
page's parent precedes it: the wikiIdMap keys are exactly the ids of the
(restricted) subtree's pages in preorder, so each non-root page's parent entry
is recorded before the page's own; and the new pages have the same
parent/child topology as the restricted source tree: each new page copies
exactly one source page, the copy of the restricted root is parentless, every
other copy's parent is the new id recorded for its source parent, and every
source page of the subtree has a copy. -/
theorem claim3_wiki_parent_order_topology
    (t s : WTree) (hw : wfW t) (hs : s ∈ subtrees t)
    (esp dsp : Option String)
    (hesp : (esp = none ∧ s = t) ∨ esp = some s.page.id)
    (entity destinationId : String) (updateLinks updateSynIds : Bool)
    (entityMap : Option (List (String × String))) (startCtr : Nat) :
    ∃ wikiIdMap newWikis,
      copyWikiModel (some t) entity destinationId esp dsp updateLinks updateSynIds
        entityMap startCtr = .ok (.copied wikiIdMap newWikis) ∧
      keys wikiIdMap = (preorder s).map WikiHeader.id ∧
      (∀ pr ∈ subtrees s, ∀ x ∈ pr.kids, ∃ l1 l2 l3,
        keys wikiIdMap = l1 ++ pr.page.id :: (l2 ++ x.page.id :: l3)) ∧
      (∀ w2 ∈ newWikis, ∃ y ∈ subtrees s, w2.srcId = y.page.id ∧
        ((wikiIdMap.find? (fun q => q.1 = y.page.id)).map Prod.snd = some w2.id) ∧
        ((y = s ∧ w2.parentId = none) ∨
         (∃ z ∈ subtrees s, y ∈ z.kids ∧
           w2.parentId = (wikiIdMap.find? (fun q => q.1 = z.page.id)).map Prod.snd ∧
           (wikiIdMap.find? (fun q => q.1 = z.page.id)).isSome = true))) ∧
      (∀ y ∈ subtrees s, ∃ w2 ∈ newWikis, w2.srcId = y.page.id) := by
  rcases hesp with ⟨rfl, rfl⟩ | rfl
  · obtain ⟨M, W, ctr1, hrun, hkeys, hord, htop, hcov⟩ :=
      root_run_full s hw s hs dsp (hdrOf s.page) rfl
        (by rw [hdr_parentId]; exact hw.2.2)
        entity destinationId updateLinks updateSynIds entityMap startCtr
    refine ⟨M, applyPasses entity destinationId updateLinks updateSynIds entityMap M W,
      ?_, hkeys, hord, htop, hcov⟩
    exact copyWikiModel_eq s entity destinationId none dsp updateLinks updateSynIds
      entityMap startCtr (hdrOf s.page :: preorderF s.kids) (preorder_node_eq s)
      M W ctr1 hrun
  · have hfuel : ht s ≤ (preorder t).length :=
      le_trans (ht_le_len s) (List.Sublist.length_le (preorder_sublist t s hs))
    have hgs := (getSub_spec t hw (preorder t).length s hs hfuel).2
    obtain ⟨M, W, ctr1, hrun, hkeys, hord, htop, hcov⟩ :=
      root_run_full t hw s hs dsp { hdrOf s.page with parentId := none } rfl rfl
        entity destinationId updateLinks updateSynIds entityMap startCtr
    refine ⟨M, applyPasses entity destinationId updateLinks updateSynIds entityMap M W,
      ?_, hkeys, hord, htop, hcov⟩
    exact copyWikiModel_eq t entity destinationId (some s.page.id) dsp updateLinks
      updateSynIds entityMap startCtr
      ({ hdrOf s.page with parentId := none } :: preorderF s.kids)
      hgs M W ctr1 hrun

theorem claim3_wiki_parent_order_topology_witness :
    wfW demoWikiTree2 ∧
    (∃ wikiIdMap newWikis,
      copyWikiModel (some demoWikiTree2) "syn1" "syn9" none none true true
        (some [("syn1", "syn9")]) 0 = .ok (.copied wikiIdMap newWikis) ∧
      keys wikiIdMap = (preorder demoWikiTree2).map WikiHeader.id ∧
      (∀ pr ∈ subtrees demoWikiTree2, ∀ x ∈ pr.kids, ∃ l1 l2 l3,
        keys wikiIdMap = l1 ++ pr.page.id :: (l2 ++ x.page.id :: l3)) ∧
      (∀ w2 ∈ newWikis, ∃ y ∈ subtrees demoWikiTree2, w2.srcId = y.page.id ∧
        ((wikiIdMap.find? (fun q => q.1 = y.page.id)).map Prod.snd = some w2.id) ∧
        ((y = demoWikiTree2 ∧ w2.parentId = none) ∨
         (∃ z ∈ subtrees demoWikiTree2, y ∈ z.kids ∧
           w2.parentId = (wikiIdMap.find? (fun q => q.1 = z.page.id)).map Prod.snd ∧
           (wikiIdMap.find? (fun q => q.1 = z.page.id)).isSome = true))) ∧
      (∀ y ∈ subtrees demoWikiTree2, ∃ w2 ∈ newWikis, w2.srcId = y.page.id)) :=
  ⟨⟨by decide, by decide, rfl⟩,
    claim3_wiki_parent_order_topology demoWikiTree2 demoWikiTree2
      ⟨by decide, by decide, rfl⟩
      (self_mem_subtrees demoWikiTree2) none none (Or.inl ⟨rfl, rfl⟩)
      "syn1" "syn9" true true (some [("syn1", "syn9")]) 0⟩

/-- CLAIM C4: with both rewrite flags set, the link-rewriting pass replaces
each sourceRef/wiki/oldId occurrence with destinationRef/wiki/newId for every
wikiIdMap pair and then replaces remaining bare source refs, and the entity-ID
pass replaces each old entity ref with its mapped counterpart; in particular
the markdown "see syn1/wiki/5" with wiki mapping 5 to 7 and entity mapping
syn1 to syn9 becomes "see syn9/wiki/7" after both passes — both at the level
of the two passes and end to end through copyWiki. -/
theorem claim4_rewrite_scenario :
    synIdRewrite [("syn1".data, "syn9".data)]
      (wikiLinkRewrite "syn1".data "syn9".data [("5".data, "7".data)] "see syn1/wiki/5".data)
      = "see syn9/wiki/7".data
  ∧ copyWikiModel (some demoWikiTree) "syn1" "syn9" none none true true
      (some [("syn1", "syn9")]) 7 =
    .ok (.copied [("5", "7")]
      [{ id := "7", parentId := none, title := "root",
         markdown := "see syn9/wiki/7".data, attachments := [], srcId := "5" }]) := by
  constructor <;> decide

/-- CLAIM C9: calling copyWiki with updateSynIds true but no entityMap (left
at its default None) skips the cross-entity-ID rewriting pass entirely: no
error is raised and the result is exactly that of the same call with
updateSynIds false. -/
theorem claim9_no_entity_map_skips_pass (sourceWiki : Option WTree)
    (entity destinationId : String) (entitySubPageId destinationSubPageId : Option String)
    (updateLinks : Bool) (startCtr : Nat) :
    copyWikiModel sourceWiki entity destinationId entitySubPageId destinationSubPageId
      updateLinks true none startCtr =
    copyWikiModel sourceWiki entity destinationId entitySubPageId destinationSubPageId
      updateLinks false none startCtr := by
  unfold copyWikiModel
  cases sourceWiki with
  | none => rfl
  | some t =>
    cases processHeaders t destinationSubPageId
        (match entitySubPageId with
         | some spid => getSubWikiHeaders (preorder t) (preorder t).length spid []
         | none => preorder t) [] [] startCtr with
    | error e => rfl
    | ok r =>
      obtain ⟨a, b, c⟩ := r
      rfl

end SynapseCopy
